import Mathlib

/-!
# Real-estate platform (`main.cpp`): embedding and verified properties

The program is a menu loop over an in-memory registry.  The embedding keeps
the object structure of the source:

* objects created with `new` live in a free store (`Store`); a pointer is the
  position of its object in the store, so two objects with equal fields still
  have different pointers;
* the vectors of `RealEstatePlatform`, `Buyer` and `Seller` hold pointers;
* dereferencing a pointer that has no object has no defined behaviour in C++;
  the embedding returns `none` there, and `main` is proved never to get there;
* `double` prices are exact rationals;
* what is written to `std::cout` and `std::cerr` is a list of items (`Out`);
* the console input is given per loop iteration (`Input`): the text at the menu
  prompt, whose extraction the program checks with `std::cin.good()`, and the
  values delivered by the extractions inside the branch taken, which the
  program does not check.  An extraction inside a branch that fails leaves
  some value in its variable and makes the next extraction of `choice` fail;
  on the registry such a run acts as the run of the embedding in which the
  branch gets that value and the next menu input is text that is no number.
-/

namespace RealEstate

/-! ## Console output -/

/-- One item written with `<<`: to `std::cout` (`str`, `int`, `size`, `dbl`,
`endl`) or to `std::cerr` (`errStr`, `errEndl`).  Numbers are kept as numbers,
so no formatting of `double` is involved. -/
inductive Out where
  | str (s : String)
  | int (n : Int)
  | size (n : Nat)
  | dbl (x : ℚ)
  | endl
  | errStr (s : String)
  | errEndl
deriving DecidableEq

/-! ## Property -/

/-- Class `ResidentialProperty`: the base fields `location`, `price` and `bedrooms`. -/
structure ResidentialProperty where
  location : String
  price : ℚ
  bedrooms : Int
deriving DecidableEq

/-- Class `CommercialProperty`: the base fields `location`, `price` and `businessType`. -/
structure CommercialProperty where
  location : String
  price : ℚ
  businessType : String
deriving DecidableEq

/-- An object of the abstract class `Property` is of one of its two derived classes. -/
inductive Property where
  | residential (r : ResidentialProperty)
  | commercial (c : CommercialProperty)
deriving DecidableEq

/-- `ResidentialProperty::display`. -/
def ResidentialProperty.display (r : ResidentialProperty) : List Out :=
  [.str "Residential Property: ", .str r.location, .str ", Bedrooms: ", .int r.bedrooms,
   .str ", Price: $", .dbl r.price, .endl]

/-- `ResidentialProperty::calculateBill`: returns the original price. -/
def ResidentialProperty.calculateBill (r : ResidentialProperty) : ℚ :=
  r.price

/-- `CommercialProperty::display`. -/
def CommercialProperty.display (c : CommercialProperty) : List Out :=
  [.str "Commercial Property: ", .str c.location, .str ", Business Type: ", .str c.businessType,
   .str ", Price: $", .dbl c.price, .endl]

/-- `CommercialProperty::calculateBill`: returns the original price. -/
def CommercialProperty.calculateBill (c : CommercialProperty) : ℚ :=
  c.price

/-- `Property::getLocation`. -/
def Property.getLocation : Property → String
  | .residential r => r.location
  | .commercial c => c.location

/-- `Property::getPrice`. -/
def Property.getPrice : Property → ℚ
  | .residential r => r.price
  | .commercial c => c.price

/-- Virtual call `property->display()`. -/
def Property.display : Property → List Out
  | .residential r => r.display
  | .commercial c => c.display

/-- Virtual call `property->calculateBill()`. -/
def Property.calculateBill : Property → ℚ
  | .residential r => r.calculateBill
  | .commercial c => c.calculateBill

/-! ## Users -/

/-- A `Property*`: the position of the object in the free store.  Every pointer
the program handles comes from `new`, so there is no null value. -/
abbrev PropertyPtr := Nat

/-- A `User*`: the position of the object in the free store. -/
abbrev UserPtr := Nat

/-- Class `Buyer` with the fields of its base class `User`. -/
structure Buyer where
  username : String
  userType : String
  ownedProperties : List PropertyPtr
  totalBill : ℚ
deriving DecidableEq

/-- Class `Seller` with the fields of its base class `User`. -/
structure Seller where
  username : String
  userType : String
  listedProperties : List PropertyPtr
deriving DecidableEq

/-- An object reached through a `User*` is a `Buyer` or a `Seller`. -/
inductive User where
  | buyer (b : Buyer)
  | seller (s : Seller)
deriving DecidableEq

/-- Constructor `Buyer(uname) : User(uname, "Buyer"), totalBill(0.0)`. -/
def Buyer.new (uname : String) : Buyer :=
  { username := uname, userType := "Buyer", ownedProperties := [], totalBill := 0 }

/-- Constructor `Seller(uname) : User(uname, "Seller")`. -/
def Seller.new (uname : String) : Seller :=
  { username := uname, userType := "Seller", listedProperties := [] }

/-- `User::getUsername`. -/
def User.getUsername : User → String
  | .buyer b => b.username
  | .seller s => s.username

/-- `User::getUserType`. -/
def User.getUserType : User → String
  | .buyer b => b.userType
  | .seller s => s.userType

/-- The cast `dynamic_cast<Buyer*>(user)`: `none` is the null result. -/
def User.asBuyer : User → Option Buyer
  | .buyer b => some b
  | .seller _ => none

/-- The free store: the objects created with `new`, in order of creation. -/
structure Store where
  properties : List Property
  users : List User
deriving DecidableEq

/-- `new ResidentialProperty(..)` / `new CommercialProperty(..)`: the new store and the pointer. -/
def Store.newProperty (st : Store) (p : Property) : Store × PropertyPtr :=
  ({ st with properties := st.properties ++ [p] }, st.properties.length)

/-- `new Buyer(..)` / `new Seller(..)`: the new store and the pointer. -/
def Store.newUser (st : Store) (u : User) : Store × UserPtr :=
  ({ st with users := st.users ++ [u] }, st.users.length)

/-- The loop `for (const auto& property : ps) property->display();`. -/
def displayEach (st : Store) : List PropertyPtr → Option (List Out)
  | [] => some []
  | p :: ps =>
    match st.properties[p]?, displayEach st ps with
    | some obj, some rest => some (obj.display ++ rest)
    | _, _ => none

/-- `User::display` of the base class. -/
def User.baseDisplay (userType username : String) : List Out :=
  [.str userType, .str " User: ", .str username, .endl]

/-- `Buyer::display`. -/
def Buyer.display (st : Store) (b : Buyer) : Option (List Out) :=
  match displayEach st b.ownedProperties with
  | some owned =>
    some (User.baseDisplay b.userType b.username ++ [.str "Owned Properties:", .endl] ++ owned ++
      [.str "Total Bill: $", .dbl b.totalBill, .endl])
  | none => none

/-- `Seller::display`. -/
def Seller.display (st : Store) (s : Seller) : Option (List Out) :=
  match displayEach st s.listedProperties with
  | some listed =>
    some (User.baseDisplay s.userType s.username ++ [.str "Listed Properties:", .endl] ++ listed)
  | none => none

/-- `Buyer::buyProperty`: push the pointer, then add `property->calculateBill()`. -/
def Buyer.buyProperty (st : Store) (b : Buyer) (property : PropertyPtr) : Option Buyer :=
  match st.properties[property]? with
  | some obj =>
    some { b with ownedProperties := b.ownedProperties ++ [property],
                  totalBill := b.totalBill + obj.calculateBill }
  | none => none

/-- `Buyer::calculateTotalBill`. -/
def Buyer.calculateTotalBill (b : Buyer) : ℚ :=
  b.totalBill

/-- `Seller::listProperty`. -/
def Seller.listProperty (s : Seller) (property : PropertyPtr) : Seller :=
  { s with listedProperties := s.listedProperties ++ [property] }

/-- `Seller::removeProperty`: the body is empty. -/
def Seller.removeProperty (s : Seller) (_property : PropertyPtr) : Seller :=
  s

/-- `Seller::getListedProperties`. -/
def Seller.getListedProperties (s : Seller) : List PropertyPtr :=
  s.listedProperties

/-! ## Platform -/

/-- Class `RealEstatePlatform`. -/
structure RealEstatePlatform where
  users : List UserPtr
  properties : List PropertyPtr
deriving DecidableEq

/-- `RealEstatePlatform::addUser`. -/
def RealEstatePlatform.addUser (p : RealEstatePlatform) (user : UserPtr) : RealEstatePlatform :=
  { p with users := p.users ++ [user] }

/-- `RealEstatePlatform::addProperty`. -/
def RealEstatePlatform.addProperty (p : RealEstatePlatform) (property : PropertyPtr) :
    RealEstatePlatform :=
  { p with properties := p.properties ++ [property] }

/-- `RealEstatePlatform::getUsers`. -/
def RealEstatePlatform.getUsers (p : RealEstatePlatform) : List UserPtr :=
  p.users

/-- `RealEstatePlatform::getProperties`. -/
def RealEstatePlatform.getProperties (p : RealEstatePlatform) : List PropertyPtr :=
  p.properties

/-! ## The menu loop of `main` -/

/-- `displayMenu`. -/
def displayMenu : List Out :=
  [.str "\n----- Real Estate Platform Menu -----\n",
   .str "1. Add Buyer\n",
   .str "2. Add Seller\n",
   .str "3. Add Residential Property\n",
   .str "4. Add Commercial Property\n",
   .str "5. Display Users\n",
   .str "6. Display Properties\n",
   .str "7. Buy Property\n",
   .str "8. Exit\n",
   .str "-------------------------------------\n"]

/-- What `std::cin >> choice` finds after skipping white space: a decimal
numeral denoting `n`, or text that does not start a numeral. -/
inductive IntText where
  | numeral (n : Int)
  | other
deriving DecidableEq

/-- Largest value of the 32-bit `int`. -/
def INT_MAX : Int := 2147483647

/-- Smallest value of the 32-bit `int`. -/
def INT_MIN : Int := -2147483648

/-- Extraction `std::cin >> choice`: the value stored in the variable and
`std::cin.good()` afterwards.  By the rule of C++11 (the source uses
`override`), text that is no numeral stores `0` and a numeral outside the
range of `int` stores the nearest bound; both set the fail bit. -/
def extractInt : IntText → Int × Bool
  | .numeral n =>
    if n < INT_MIN then (INT_MIN, false)
    else if INT_MAX < n then (INT_MAX, false)
    else (n, true)
  | .other => (0, false)

/-- The values the extractions of one loop iteration deliver: the text at the
menu prompt, and the values read inside the branch taken (each branch uses
only its own). -/
structure Input where
  choice : IntText
  username : String
  location : String
  price : ℚ
  bedrooms : Int
  businessType : String
  buyerIndex : Int
  propertyIndex : Int
deriving DecidableEq

/-- The variables of `main`: the free store, `platform` and `choice`. -/
structure State where
  store : Store
  platform : RealEstatePlatform
  choice : Int
deriving DecidableEq

/-- `case 1`: `platform.addUser(new Buyer(username))`. -/
def case1 (s : State) (username : String) : State × List Out :=
  let a := s.store.newUser (.buyer (Buyer.new username))
  ({ s with store := a.1, platform := s.platform.addUser a.2 },
   [.str "Enter buyer's username: "])

/-- `case 2`: `platform.addUser(new Seller(username))`. -/
def case2 (s : State) (username : String) : State × List Out :=
  let a := s.store.newUser (.seller (Seller.new username))
  ({ s with store := a.1, platform := s.platform.addUser a.2 },
   [.str "Enter seller's username: "])

/-- `case 3`: `platform.addProperty(new ResidentialProperty(location, price, bedrooms))`. -/
def case3 (s : State) (location : String) (price : ℚ) (bedrooms : Int) : State × List Out :=
  let a := s.store.newProperty (.residential ⟨location, price, bedrooms⟩)
  ({ s with store := a.1, platform := s.platform.addProperty a.2 },
   [.str "Enter property location: ", .str "Enter property price: $",
    .str "Enter number of bedrooms: "])

/-- `case 4`: `platform.addProperty(new CommercialProperty(location, price, businessType))`. -/
def case4 (s : State) (location : String) (price : ℚ) (businessType : String) :
    State × List Out :=
  let a := s.store.newProperty (.commercial ⟨location, price, businessType⟩)
  ({ s with store := a.1, platform := s.platform.addProperty a.2 },
   [.str "Enter property location: ", .str "Enter property price: $",
    .str "Enter business type: "])

/-- The loop of `case 5` over `platform.getUsers()`. -/
def listUsers (st : Store) : List UserPtr → Option (List Out)
  | [] => some []
  | u :: us =>
    match st.users[u]?, listUsers st us with
    | some obj, some rest =>
      some ([.str "Username: ", .str obj.getUsername, .str ", Type: ", .str obj.getUserType,
             .endl] ++ rest)
    | _, _ => none

/-- `case 5`. -/
def case5 (s : State) : Option (State × List Out) :=
  match listUsers s.store s.platform.getUsers with
  | some o => some (s, [.str "Users on the Platform:", .endl] ++ o)
  | none => none

/-- `case 6`. -/
def case6 (s : State) : Option (State × List Out) :=
  match displayEach s.store s.platform.getProperties with
  | some o => some (s, [.str "Properties on the Platform:", .endl] ++ o)
  | none => none

/-- The first loop of `case 7`, from index `i` on: the users whose `getUserType()`
is `"Buyer"` are written with their index. -/
def listBuyersFrom (st : Store) (i : Nat) : List UserPtr → Option (List Out)
  | [] => some []
  | u :: us =>
    match st.users[u]?, listBuyersFrom st (i + 1) us with
    | some obj, some rest =>
      if obj.getUserType = "Buyer" then
        some ([.size i, .str ". ", .str obj.getUsername, .endl] ++ rest)
      else some rest
    | _, _ => none

/-- The second loop of `case 7`, from index `i` on: every property with its index. -/
def listPropertiesFrom (st : Store) (i : Nat) : List PropertyPtr → Option (List Out)
  | [] => some []
  | p :: ps =>
    match st.properties[p]?, listPropertiesFrom st (i + 1) ps with
    | some obj, some rest => some ([.size i, .str ". "] ++ obj.display ++ rest)
    | _, _ => none

/-- What `case 7` writes before its bounds check: both listings and both prompts. -/
def purchasePrompts (s : State) : Option (List Out) :=
  match listBuyersFrom s.store 0 s.platform.getUsers,
        listPropertiesFrom s.store 0 s.platform.getProperties with
  | some o1, some o2 =>
    some ([.str "Buyers on the Platform:", .endl] ++ o1 ++ [.str "Enter the index of the buyer: "] ++
          [.str "Properties on the Platform:", .endl] ++ o2 ++
          [.str "Enter the index of the property to buy: "])
  | _, _ => none

/-- The `if` of `case 7` after both indices are read.  The comparison of an
`int` with `size()` is exact here because `>= 0` is tested first. -/
def purchase (s : State) (buyerIndex propertyIndex : Int) : Option (State × List Out) :=
  let users := s.platform.getUsers
  let properties := s.platform.getProperties
  if 0 ≤ buyerIndex ∧ buyerIndex < users.length ∧
     0 ≤ propertyIndex ∧ propertyIndex < properties.length then
    match users[buyerIndex.toNat]?, properties[propertyIndex.toNat]? with
    | some u, some property =>
      match s.store.users[u]? with
      | some obj =>
        match obj.asBuyer with
        | some buyer =>
          match buyer.buyProperty s.store property with
          | some buyer1 =>
            let store1 : Store := { s.store with users := s.store.users.set u (.buyer buyer1) }
            match buyer1.display store1 with
            | some o => some ({ s with store := store1 }, [.str "Property bought successfully!\n"] ++ o)
            | none => none
          | none => none
        | none => some (s, [.str "Invalid buyer or property!\n"])
      | none => none
    | _, _ => none
  else some (s, [.str "Invalid indices!\n"])

/-- `case 7`. -/
def case7 (s : State) (buyerIndex propertyIndex : Int) : Option (State × List Out) :=
  match purchasePrompts s, purchase s buyerIndex propertyIndex with
  | some o1, some (s1, o2) => some (s1, o1 ++ o2)
  | _, _ => none

/-- The `switch (choice)`. -/
def dispatch (s : State) (inp : Input) : Option (State × List Out) :=
  if s.choice = 1 then some (case1 s inp.username)
  else if s.choice = 2 then some (case2 s inp.username)
  else if s.choice = 3 then some (case3 s inp.location inp.price inp.bedrooms)
  else if s.choice = 4 then some (case4 s inp.location inp.price inp.businessType)
  else if s.choice = 5 then case5 s
  else if s.choice = 6 then case6 s
  else if s.choice = 7 then case7 s inp.buyerIndex inp.propertyIndex
  else if s.choice = 8 then some (s, [.str "Exiting the program.\n"])
  else some (s, [.str "Invalid choice. Please try again.\n"])

/-- One iteration of the `do` body: menu, extraction of `choice`, then either the
`throw` that the `catch` reports, or the `switch`. -/
def loopBody (s : State) (inp : Input) : Option (State × List Out) :=
  let r := extractInt inp.choice
  let s1 : State := { s with choice := r.1 }
  let menu := displayMenu ++ [.str "Enter your choice: "]
  if r.2 then
    match dispatch s1 inp with
    | some (s2, o) => some (s2, menu ++ o)
    | none => none
  else
    some (s1, menu ++ [.errStr "Error: ", .errStr "Invalid input. Please enter a number.", .errEndl])

/-- The `do ... while (choice != 8)` loop over the inputs of successive
iterations: the state and the output once `choice` is 8, or once the given
inputs are consumed (the state the program is in at that point). -/
def mainLoop (s : State) : List Input → Option (State × List Out)
  | [] => some (s, [])
  | inp :: rest =>
    match loopBody s inp with
    | some (s1, o1) =>
      if s1.choice ≠ 8 then
        match mainLoop s1 rest with
        | some (s2, o2) => some (s2, o1 ++ o2)
        | none => none
      else some (s1, o1)
    | none => none

/-- The state at the start of `main`: nothing allocated, an empty platform and
an uninitialised `choice`, whose value `c0` is arbitrary. -/
def initial (c0 : Int) : State :=
  { store := ⟨[], []⟩, platform := ⟨[], []⟩, choice := c0 }

/-- `main` run on the inputs of its iterations. -/
def main (c0 : Int) (inputs : List Input) : Option (State × List Out) :=
  mainLoop (initial c0) inputs

/-! ## Specification vocabulary -/

/-- The property pointers an object holds. -/
def User.pointers : User → List PropertyPtr
  | .buyer b => b.ownedProperties
  | .seller s => s.listedProperties

/-- Every pointer held anywhere in the state has its object in the free store. -/
def WellFormed (s : State) : Prop :=
  (∀ u ∈ s.platform.users, u < s.store.users.length) ∧
  (∀ p ∈ s.platform.properties, p < s.store.properties.length) ∧
  (∀ u ∈ s.store.users, ∀ p ∈ u.pointers, p < s.store.properties.length)

instance (s : State) : Decidable (WellFormed s) := by
  unfold WellFormed; infer_instance

/-- The object `*users[i]` of the platform. -/
def State.userAt (s : State) (i : Nat) : Option User :=
  match s.platform.getUsers[i]? with
  | some u => s.store.users[u]?
  | none => none

/-- The object `*properties[j]` of the platform. -/
def State.propertyAt (s : State) (j : Nat) : Option Property :=
  match s.platform.getProperties[j]? with
  | some p => s.store.properties[p]?
  | none => none

/-- The buyer after `buyProperty(p)` where `*p` is `P`. -/
def Buyer.bought (b : Buyer) (p : PropertyPtr) (P : Property) : Buyer :=
  { b with ownedProperties := b.ownedProperties ++ [p], totalBill := b.totalBill + P.calculateBill }

/-- The state with `choice` overwritten. -/
def State.withChoice (s : State) (c : Int) : State :=
  { s with choice := c }

/-- The state after `addUser(new ..)` of object `obj`. -/
def State.registerUser (s : State) (obj : User) : State :=
  { s with store := { s.store with users := s.store.users ++ [obj] },
           platform := { s.platform with users := s.platform.users ++ [s.store.users.length] } }

/-- The state after `addProperty(new ..)` of object `P`. -/
def State.registerProperty (s : State) (P : Property) : State :=
  { s with store := { s.store with properties := s.store.properties ++ [P] },
           platform := { s.platform with
             properties := s.platform.properties ++ [s.store.properties.length] } }

/-- The state after the object at `u` is replaced by `obj`. -/
def State.putUser (s : State) (u : UserPtr) (obj : User) : State :=
  { s with store := { s.store with users := s.store.users.set u obj } }

/-- What one iteration can do to the state, besides overwriting `choice`. -/
def Effect (s s1 : State) : Prop :=
  (∃ c, s1 = s.withChoice c) ∨
  (∃ c name, s1 = (s.withChoice c).registerUser (.buyer (Buyer.new name))) ∨
  (∃ c name, s1 = (s.withChoice c).registerUser (.seller (Seller.new name))) ∨
  (∃ c P, s1 = (s.withChoice c).registerProperty P) ∨
  (∃ c u b p P, u ∈ s.platform.users ∧ s.store.users[u]? = some (.buyer b) ∧
      p ∈ s.platform.properties ∧ s.store.properties[p]? = some P ∧
      s1 = (s.withChoice c).putUser u (.buyer (b.bought p P)))

/-- The `userType` tag of every object agrees with its class. -/
def TagsAgree (s : State) : Prop :=
  ∀ u ∈ s.store.users,
    (∃ b, u = .buyer b ∧ b.userType = "Buyer") ∨ (∃ sl, u = .seller sl ∧ sl.userType = "Seller")

/-- Every buyer owns listed properties only, and its bill is the sum over what it owns. -/
def BillsAgree (s : State) : Prop :=
  ∀ b, User.buyer b ∈ s.store.users →
    (∀ p ∈ b.ownedProperties, p ∈ s.platform.properties) ∧
    ∃ Ps : List Property,
      b.ownedProperties.map (fun p => s.store.properties[p]?) = Ps.map some ∧
      b.totalBill = (Ps.map Property.calculateBill).sum

/-- The invariant of the menu loop. -/
def Inv (s : State) : Prop :=
  WellFormed s ∧ TagsAgree s ∧ BillsAgree s

/-- The input of an iteration that chooses 7 and enters the indices `i` and `j`. -/
def buyInput (i j : Int) : Input :=
  { choice := .numeral 7, username := "", location := "", price := 0, bedrooms := 0,
    businessType := "", buyerIndex := i, propertyIndex := j }

/-- Buyer "alice" at index 0 and one residential property priced 250000 at index 0. -/
def aliceState : State :=
  { store := { properties := [.residential ⟨"Oak", 250000, 3⟩],
               users := [.buyer (Buyer.new "alice")] },
    platform := { users := [0], properties := [0] },
    choice := 3 }

/-- One registered buyer "alice" and nothing else. -/
def oneUserState : State :=
  { store := { properties := [], users := [.buyer (Buyer.new "alice")] },
    platform := { users := [0], properties := [] },
    choice := 1 }

/-- Seller "bob" at index 0 and one commercial property at index 0. -/
def sellerState : State :=
  { store := { properties := [.commercial ⟨"Mall", 90000, "shop"⟩],
               users := [.seller (Seller.new "bob")] },
    platform := { users := [0], properties := [0] },
    choice := 4 }

/-- The object that `case 1` or `case 2` creates for an input. -/
def registeredUser (inp : Input) : User :=
  if inp.choice = .numeral 1 then .buyer (Buyer.new inp.username)
  else .seller (Seller.new inp.username)

/-- The input of an iteration that chooses 1 (add buyer) and enters a username. -/
def addBuyerInput (name : String) : Input :=
  { choice := .numeral 1, username := name, location := "", price := 0, bedrooms := 0,
    businessType := "", buyerIndex := 0, propertyIndex := 0 }

/-- The input of an iteration that chooses 2 (add seller) and enters a username. -/
def addSellerInput (name : String) : Input :=
  { choice := .numeral 2, username := name, location := "", price := 0, bedrooms := 0,
    businessType := "", buyerIndex := 0, propertyIndex := 0 }

/-- An input whose menu choice is the numeral `c`; nothing else is read. -/
def choiceInput (c : IntText) : Input :=
  { choice := c, username := "", location := "", price := 0, bedrooms := 0,
    businessType := "", buyerIndex := 0, propertyIndex := 0 }

/-- The input of an iteration that chooses 3 and enters a residential property. -/
def addResidentialInput (loc : String) (pr : ℚ) (beds : Int) : Input :=
  { choice := .numeral 3, username := "", location := loc, price := pr, bedrooms := beds,
    businessType := "", buyerIndex := 0, propertyIndex := 0 }

/-- Every property object has a non-negative price. -/
def PricesNonneg (s : State) : Prop :=
  ∀ P ∈ s.store.properties, 0 ≤ P.getPrice

/-- The input of an iteration that chooses 4 and enters a commercial property. -/
def addCommercialInput (loc : String) (pr : ℚ) (type : String) : Input :=
  { choice := .numeral 4, username := "", location := loc, price := pr, bedrooms := 0,
    businessType := type, buyerIndex := 0, propertyIndex := 0 }

/-! ## Lemmas -/

/-- The display loop completes when every pointer it visits has its object. -/
theorem displayEach_some (st : Store) (ps : List PropertyPtr)
    (h : ∀ p ∈ ps, p < st.properties.length) : ∃ o, displayEach st ps = some o := by
  induction ps with
  | nil => exact ⟨[], rfl⟩
  | cons p ps ih =>
    obtain ⟨o, ho⟩ := ih (fun q hq => h q (List.mem_cons_of_mem _ hq))
    have hp : p < st.properties.length := h p (List.mem_cons_self _ _)
    refine ⟨(st.properties[p]).display ++ o, ?_⟩
    simp [displayEach, ho, List.getElem?_eq_getElem hp]

/-- The loop of `case 5` completes when every user pointer has its object. -/
theorem listUsers_some (st : Store) (us : List UserPtr)
    (h : ∀ u ∈ us, u < st.users.length) : ∃ o, listUsers st us = some o := by
  induction us with
  | nil => exact ⟨[], rfl⟩
  | cons u us ih =>
    obtain ⟨o, ho⟩ := ih (fun q hq => h q (List.mem_cons_of_mem _ hq))
    have hu : u < st.users.length := h u (List.mem_cons_self _ _)
    simp [listUsers, ho, List.getElem?_eq_getElem hu]

/-- The buyer listing of `case 7` completes when every user pointer has its object. -/
theorem listBuyersFrom_some (st : Store) (us : List UserPtr)
    (h : ∀ u ∈ us, u < st.users.length) (i : Nat) : ∃ o, listBuyersFrom st i us = some o := by
  induction us generalizing i with
  | nil => exact ⟨[], rfl⟩
  | cons u us ih =>
    obtain ⟨o, ho⟩ := ih (fun q hq => h q (List.mem_cons_of_mem _ hq)) (i + 1)
    have hu : u < st.users.length := h u (List.mem_cons_self _ _)
    simp only [listBuyersFrom, ho, List.getElem?_eq_getElem hu]
    split_ifs <;> simp

/-- The property listing of `case 7` completes when every pointer has its object. -/
theorem listPropertiesFrom_some (st : Store) (ps : List PropertyPtr)
    (h : ∀ p ∈ ps, p < st.properties.length) (i : Nat) :
    ∃ o, listPropertiesFrom st i ps = some o := by
  induction ps generalizing i with
  | nil => exact ⟨[], rfl⟩
  | cons p ps ih =>
    obtain ⟨o, ho⟩ := ih (fun q hq => h q (List.mem_cons_of_mem _ hq)) (i + 1)
    have hp : p < st.properties.length := h p (List.mem_cons_self _ _)
    simp [listPropertiesFrom, ho, List.getElem?_eq_getElem hp]

/-- In a well-formed state `case 7` gets as far as its bounds check. -/
theorem purchasePrompts_some (s : State) (h : WellFormed s) : ∃ o, purchasePrompts s = some o := by
  obtain ⟨o1, h1⟩ := listBuyersFrom_some s.store s.platform.getUsers h.1 0
  obtain ⟨o2, h2⟩ := listPropertiesFrom_some s.store s.platform.getProperties h.2.1 0
  simp [purchasePrompts, h1, h2]

/-- The display loop reads the property objects only. -/
theorem displayEach_congr (st1 st2 : Store) (ps : List PropertyPtr)
    (h : st1.properties = st2.properties) : displayEach st1 ps = displayEach st2 ps := by
  induction ps with
  | nil => rfl
  | cons x xs ih => simp only [displayEach, ih, h]

/-- The `else` of the bounds check. -/
theorem purchase_invalid_indices (s : State) (i j : Int)
    (h : ¬ (0 ≤ i ∧ i < s.platform.getUsers.length ∧ 0 ≤ j ∧ j < s.platform.getProperties.length)) :
    purchase s i j = some (s, [.str "Invalid indices!\n"]) := by
  unfold purchase
  simp only [if_neg h]

/-- In bounds, with a `Seller` at the buyer index: the cast is null. -/
theorem purchase_seller (s : State) (i j : Int) (u : UserPtr) (sl : Seller)
    (h : 0 ≤ i ∧ i < s.platform.getUsers.length ∧ 0 ≤ j ∧ j < s.platform.getProperties.length)
    (hu : s.platform.getUsers[i.toNat]? = some u) (hs : s.store.users[u]? = some (.seller sl)) :
    purchase s i j = some (s, [.str "Invalid buyer or property!\n"]) := by
  have hj : j.toNat < s.platform.getProperties.length := by omega
  unfold purchase
  simp only [if_pos h, hu, List.getElem?_eq_getElem hj, hs, User.asBuyer]

/-- What `Buyer::display` writes, given what its loop writes. -/
theorem display_of_displayEach (st : Store) (b : Buyer) (o : List Out)
    (h : displayEach st b.ownedProperties = some o) :
    Buyer.display st b =
      some (User.baseDisplay b.userType b.username ++ [.str "Owned Properties:", .endl] ++ o ++
        [.str "Total Bill: $", .dbl b.totalBill, .endl]) := by
  unfold Buyer.display
  rw [h]

/-- In bounds, with a `Buyer` at the buyer index: the object is replaced by the buyer after
`buyProperty`, and the success line and the display are written. -/
theorem purchase_buyer (s : State) (i j : Int) (u : UserPtr) (b : Buyer) (p : PropertyPtr)
    (P : Property) (hwf : WellFormed s)
    (h : 0 ≤ i ∧ i < s.platform.getUsers.length ∧ 0 ≤ j ∧ j < s.platform.getProperties.length)
    (hu : s.platform.getUsers[i.toNat]? = some u) (hb : s.store.users[u]? = some (.buyer b))
    (hp : s.platform.getProperties[j.toNat]? = some p) (hP : s.store.properties[p]? = some P) :
    ∃ d, Buyer.display (s.putUser u (.buyer (b.bought p P))).store (b.bought p P) = some d ∧
      purchase s i j = some (s.putUser u (.buyer (b.bought p P)),
        .str "Property bought successfully!\n" :: d) := by
  have hmem : User.buyer b ∈ s.store.users := List.getElem?_mem hb
  have hvalid : ∀ q ∈ b.ownedProperties ++ [p], q < s.store.properties.length := by
    intro q hq
    rcases List.mem_append.1 hq with hq | hq
    · exact hwf.2.2 _ hmem q hq
    · have : q = p := by simpa using hq
      subst this
      exact (List.getElem?_eq_some.1 hP).1
  obtain ⟨o, ho⟩ := displayEach_some s.store _ hvalid
  have key : displayEach (s.putUser u (.buyer (b.bought p P))).store (b.ownedProperties ++ [p]) =
      some o := by
    rw [← ho]
    exact displayEach_congr _ _ _ rfl
  have hd : Buyer.display (s.putUser u (.buyer (b.bought p P))).store (b.bought p P) =
      some (User.baseDisplay b.userType b.username ++ [.str "Owned Properties:", .endl] ++ o ++
        [.str "Total Bill: $", .dbl (b.totalBill + P.calculateBill), .endl]) :=
    display_of_displayEach _ (b.bought p P) o key
  refine ⟨_, hd, ?_⟩
  have hb1 : Buyer.buyProperty s.store b p = some (b.bought p P) := by
    simp only [Buyer.buyProperty, hP, Buyer.bought]
  have hd1 : Buyer.display
      ({ s.store with users := s.store.users.set u (.buyer (b.bought p P)) } : Store)
      (b.bought p P) = _ := hd
  unfold purchase
  simp only [if_pos h, hu, hp, hb, User.asBuyer, hb1, hd1]
  rfl

/-- A good extraction has read the numeral of the value it stored. -/
theorem extractInt_good (t : IntText) (h : (extractInt t).2 = true) :
    t = .numeral (extractInt t).1 := by
  cases t with
  | other => simp [extractInt] at h
  | numeral n =>
    simp only [extractInt] at h ⊢
    split_ifs at h ⊢
    rfl

/-- The effect of `case 7` on a well-formed state. -/
theorem case7_effect (s : State) (i j : Int) (hwf : WellFormed s) :
    ∃ s1 o, case7 s i j = some (s1, o) ∧ Effect s s1 := by
  obtain ⟨pre, hpre⟩ := purchasePrompts_some s hwf
  by_cases h : 0 ≤ i ∧ i < s.platform.getUsers.length ∧ 0 ≤ j ∧ j < s.platform.getProperties.length
  · have hi : i.toNat < s.platform.getUsers.length := by omega
    have hj : j.toNat < s.platform.getProperties.length := by omega
    obtain ⟨u, hu⟩ : ∃ u, s.platform.getUsers[i.toNat]? = some u :=
      ⟨_, List.getElem?_eq_getElem hi⟩
    obtain ⟨p, hp⟩ : ∃ p, s.platform.getProperties[j.toNat]? = some p :=
      ⟨_, List.getElem?_eq_getElem hj⟩
    have hu1 : u < s.store.users.length := hwf.1 u (List.getElem?_mem hu)
    have hp1 : p < s.store.properties.length := hwf.2.1 p (List.getElem?_mem hp)
    obtain ⟨obj, hobj⟩ : ∃ obj, s.store.users[u]? = some obj := ⟨_, List.getElem?_eq_getElem hu1⟩
    obtain ⟨P, hP⟩ : ∃ P, s.store.properties[p]? = some P := ⟨_, List.getElem?_eq_getElem hp1⟩
    cases obj with
    | buyer b =>
      obtain ⟨d, -, ho⟩ := purchase_buyer s i j u b p P hwf h hu hobj hp hP
      refine ⟨_, _, by simp only [case7, hpre, ho]; rfl, ?_⟩
      refine Or.inr (Or.inr (Or.inr (Or.inr ⟨s.choice, u, b, p, P, List.getElem?_mem hu, hobj,
        List.getElem?_mem hp, hP, rfl⟩)))
    | seller sl =>
      refine ⟨_, _, by simp only [case7, hpre, purchase_seller s i j u sl h hu hobj]; rfl, ?_⟩
      exact Or.inl ⟨s.choice, rfl⟩
  · refine ⟨_, _, by simp only [case7, hpre, purchase_invalid_indices s i j h]; rfl, ?_⟩
    exact Or.inl ⟨s.choice, rfl⟩

/-- Overwriting `choice` keeps the state well-formed. -/
theorem withChoice_wf (s : State) (c : Int) (h : WellFormed s) : WellFormed (s.withChoice c) := h

/-- An effect after overwriting `choice` is an effect. -/
theorem effect_withChoice (s s1 : State) (c : Int) (h : Effect (s.withChoice c) s1) : Effect s s1 := by
  rcases h with ⟨d, rfl⟩ | ⟨d, n, rfl⟩ | ⟨d, n, rfl⟩ | ⟨d, P, rfl⟩ | ⟨d, u, b, p, P, h1, h2, h3, h4, rfl⟩
  · exact Or.inl ⟨d, rfl⟩
  · exact Or.inr (Or.inl ⟨d, n, rfl⟩)
  · exact Or.inr (Or.inr (Or.inl ⟨d, n, rfl⟩))
  · exact Or.inr (Or.inr (Or.inr (Or.inl ⟨d, P, rfl⟩)))
  · exact Or.inr (Or.inr (Or.inr (Or.inr ⟨d, u, b, p, P, h1, h2, h3, h4, rfl⟩)))

/-- In a well-formed state the `switch` completes, with one of the listed effects. -/
theorem dispatch_effect (s : State) (inp : Input) (hwf : WellFormed s) :
    ∃ s1 o, dispatch s inp = some (s1, o) ∧ Effect s s1 := by
  unfold dispatch
  split_ifs
  · exact ⟨_, _, rfl, Or.inr (Or.inl ⟨s.choice, inp.username, rfl⟩)⟩
  · exact ⟨_, _, rfl, Or.inr (Or.inr (Or.inl ⟨s.choice, inp.username, rfl⟩))⟩
  · exact ⟨_, _, rfl, Or.inr (Or.inr (Or.inr (Or.inl ⟨s.choice, _, rfl⟩)))⟩
  · exact ⟨_, _, rfl, Or.inr (Or.inr (Or.inr (Or.inl ⟨s.choice, _, rfl⟩)))⟩
  · obtain ⟨o, ho⟩ := listUsers_some s.store s.platform.getUsers hwf.1
    exact ⟨s, _, by simp only [case5, ho]; rfl, Or.inl ⟨s.choice, rfl⟩⟩
  · obtain ⟨o, ho⟩ := displayEach_some s.store s.platform.getProperties hwf.2.1
    exact ⟨s, _, by simp only [case6, ho]; rfl, Or.inl ⟨s.choice, rfl⟩⟩
  · exact case7_effect s _ _ hwf
  · exact ⟨s, _, rfl, Or.inl ⟨s.choice, rfl⟩⟩
  · exact ⟨s, _, rfl, Or.inl ⟨s.choice, rfl⟩⟩

/-- In a well-formed state an iteration completes, with one of the listed effects. -/
theorem loopBody_effect (s : State) (inp : Input) (hwf : WellFormed s) :
    ∃ s1 o, loopBody s inp = some (s1, o) ∧ Effect s s1 := by
  unfold loopBody
  by_cases hg : (extractInt inp.choice).2 = true
  · obtain ⟨s1, o, h1, h2⟩ := dispatch_effect (s.withChoice (extractInt inp.choice).1) inp
      (withChoice_wf s _ hwf)
    refine ⟨s1, (displayMenu ++ [.str "Enter your choice: "]) ++ o, ?_, effect_withChoice s s1 _ h2⟩
    simp only [State.withChoice] at h1
    simp only [hg, if_true, h1]
  · refine ⟨s.withChoice (extractInt inp.choice).1,
      (displayMenu ++ [.str "Enter your choice: "]) ++
        [.errStr "Error: ", .errStr "Invalid input. Please enter a number.", .errEndl], ?_,
      Or.inl ⟨_, rfl⟩⟩
    simp only [hg, State.withChoice]
    rfl

/-- The invariant holds at the start of `main`. -/
theorem inv_initial (c0 : Int) : Inv (initial c0) := by
  refine ⟨⟨?_, ?_, ?_⟩, ?_, ?_⟩ <;> intro x hx <;> simp [initial] at hx

/-- Registering a freshly constructed user keeps the invariant. -/
theorem inv_registerUser (s : State) (obj : User) (h : Inv s)
    (hobj : (∃ n, obj = .buyer (Buyer.new n)) ∨ (∃ n, obj = .seller (Seller.new n))) :
    Inv (s.registerUser obj) := by
  obtain ⟨⟨w1, w2, w3⟩, ht, hb⟩ := h
  have hptr : obj.pointers = [] := by
    rcases hobj with ⟨n, rfl⟩ | ⟨n, rfl⟩ <;> rfl
  refine ⟨⟨?_, ?_, ?_⟩, ?_, ?_⟩
  · intro u hu
    simp only [State.registerUser, List.mem_append, List.mem_singleton, List.length_append,
      List.length_singleton] at hu ⊢
    rcases hu with hu | rfl
    · exact Nat.lt_succ_of_lt (w1 u hu)
    · exact Nat.lt_succ_self _
  · exact w2
  · intro u hu p hp
    simp only [State.registerUser, List.mem_append, List.mem_singleton] at hu ⊢
    rcases hu with hu | rfl
    · exact w3 u hu p hp
    · rw [hptr] at hp; simp at hp
  · intro u hu
    simp only [State.registerUser, List.mem_append, List.mem_singleton] at hu
    rcases hu with hu | rfl
    · exact ht u hu
    · rcases hobj with ⟨n, rfl⟩ | ⟨n, rfl⟩
      · exact Or.inl ⟨_, rfl, rfl⟩
      · exact Or.inr ⟨_, rfl, rfl⟩
  · intro b hbm
    simp only [State.registerUser, List.mem_append, List.mem_singleton] at hbm
    rcases hbm with hbm | rfl
    · exact hb b hbm
    · rcases hobj with ⟨n, hn⟩ | ⟨n, hn⟩
      · have : b = Buyer.new n := by injection hn
        subst this
        refine ⟨by intro p hp; simp [Buyer.new] at hp, [], ?_, ?_⟩ <;> simp [Buyer.new]
      · cases hn

/-- An object keeps its address when another one is allocated. -/
theorem getElem?_append_one {α : Type} (l : List α) (a : α) (p : Nat) (hp : p < l.length) :
    (l ++ [a])[p]? = l[p]? :=
  List.getElem?_append_left hp

/-- Registering a property keeps the invariant. -/
theorem inv_registerProperty (s : State) (P : Property) (h : Inv s) :
    Inv (s.registerProperty P) := by
  obtain ⟨⟨w1, w2, w3⟩, ht, hb⟩ := h
  refine ⟨⟨w1, ?_, ?_⟩, ht, ?_⟩
  · intro p hp
    simp only [State.registerProperty, List.mem_append, List.mem_singleton, List.length_append,
      List.length_singleton] at hp ⊢
    rcases hp with hp | rfl
    · exact Nat.lt_succ_of_lt (w2 p hp)
    · exact Nat.lt_succ_self _
  · intro u hu p hp
    simp only [State.registerProperty, List.length_append, List.length_singleton] at hu ⊢
    exact Nat.lt_succ_of_lt (w3 u hu p hp)
  · intro b hbm
    obtain ⟨h1, Ps, h2, h3⟩ := hb b hbm
    refine ⟨fun p hp => ?_, Ps, ?_, h3⟩
    · simp only [State.registerProperty, List.mem_append]
      exact Or.inl (h1 p hp)
    · rw [← h2]
      apply List.map_congr_left
      intro p hp
      exact getElem?_append_one _ _ _ (w3 _ hbm p hp)

/-- A purchase keeps the invariant. -/
theorem inv_putUser (s : State) (u : UserPtr) (b : Buyer) (p : PropertyPtr) (P : Property)
    (h : Inv s) (hb : s.store.users[u]? = some (.buyer b)) (hp : p ∈ s.platform.properties)
    (hP : s.store.properties[p]? = some P) :
    Inv (s.putUser u (.buyer (b.bought p P))) := by
  obtain ⟨⟨w1, w2, w3⟩, ht, hbl⟩ := h
  have hmem : User.buyer b ∈ s.store.users := List.getElem?_mem hb
  refine ⟨⟨?_, w2, ?_⟩, ?_, ?_⟩
  · intro x hx
    simp only [State.putUser, List.length_set]
    exact w1 x hx
  · intro x hx q hq
    simp only [State.putUser] at hx ⊢
    rcases List.mem_or_eq_of_mem_set hx with hx | rfl
    · exact w3 x hx q hq
    · simp only [User.pointers, Buyer.bought, List.mem_append, List.mem_singleton] at hq
      rcases hq with hq | rfl
      · exact w3 _ hmem q hq
      · exact w2 q hp
  · intro x hx
    simp only [State.putUser] at hx
    rcases List.mem_or_eq_of_mem_set hx with hx | rfl
    · exact ht x hx
    · rcases ht _ hmem with ⟨b0, e, t⟩ | ⟨sl, e, -⟩
      · injection e with e
        subst e
        exact Or.inl ⟨_, rfl, t⟩
      · cases e
  · intro x hx
    simp only [State.putUser] at hx ⊢
    rcases List.mem_or_eq_of_mem_set hx with hx | hx
    · exact hbl x hx
    · injection hx with hx
      subst hx
      obtain ⟨h1, Ps, h2, h3⟩ := hbl b hmem
      refine ⟨?_, Ps ++ [P], ?_, ?_⟩
      · intro q hq
        simp only [Buyer.bought, List.mem_append, List.mem_singleton] at hq
        rcases hq with hq | rfl
        · exact h1 q hq
        · exact hp
      · simp only [Buyer.bought, List.map_append, h2, List.map_cons, List.map_nil, hP]
      · simp only [Buyer.bought, List.map_append, List.sum_append, h3, List.map_cons, List.map_nil,
          List.sum_cons, List.sum_nil, add_zero]

/-- Every effect of an iteration keeps the invariant. -/
theorem inv_effect (s s1 : State) (h : Inv s) (he : Effect s s1) : Inv s1 := by
  rcases he with ⟨d, rfl⟩ | ⟨d, n, rfl⟩ | ⟨d, n, rfl⟩ | ⟨d, P, rfl⟩ |
    ⟨d, u, b, p, P, -, h2, h3, h4, rfl⟩
  · exact h
  · exact inv_registerUser (s.withChoice d) _ h (Or.inl ⟨n, rfl⟩)
  · exact inv_registerUser (s.withChoice d) _ h (Or.inr ⟨n, rfl⟩)
  · exact inv_registerProperty (s.withChoice d) P h
  · exact inv_putUser (s.withChoice d) u b p P h h2 h3 h4

/-- Invariant rule for the loop: a property kept by every iteration on inputs satisfying `Q`
holds when the loop stops, and the loop does stop with a state. -/
theorem mainLoop_invariant (I : State → Prop) (Q : Input → Prop)
    (hstep : ∀ s inp, Q inp → I s → ∃ s1 o, loopBody s inp = some (s1, o) ∧ I s1) :
    ∀ (inputs : List Input) (s : State), (∀ x ∈ inputs, Q x) → I s →
      ∃ s2 o, mainLoop s inputs = some (s2, o) ∧ I s2 := by
  intro inputs
  induction inputs with
  | nil => intro s _ hs; exact ⟨s, [], rfl, hs⟩
  | cons inp rest ih =>
    intro s hq hs
    obtain ⟨s1, o1, h1, hI⟩ := hstep s inp (hq inp (List.mem_cons_self _ _)) hs
    by_cases hc : s1.choice ≠ 8
    · obtain ⟨s2, o2, h2, hI2⟩ := ih s1 (fun x hx => hq x (List.mem_cons_of_mem _ hx)) hI
      exact ⟨s2, o1 ++ o2, by simp only [mainLoop, h1, if_pos hc, h2], hI2⟩
    · exact ⟨s1, o1, by simp only [mainLoop, h1, if_neg hc], hI⟩

/-- Whatever the inputs, `main` ends in a state that satisfies the invariant. -/
theorem main_inv (c0 : Int) (inputs : List Input) :
    ∃ s o, main c0 inputs = some (s, o) ∧ Inv s :=
  mainLoop_invariant Inv (fun _ => True)
    (fun s inp _ hs => by
      obtain ⟨s1, o, h1, h2⟩ := loopBody_effect s inp hs.1
      exact ⟨s1, o, h1, inv_effect s s1 hs h2⟩)
    inputs (initial c0) (fun _ _ => trivial) (inv_initial c0)

/-- An iteration whose menu input is the numeral 7 runs `case 7`. -/
theorem loopBody_choice7 (s : State) (inp : Input) (hc : inp.choice = .numeral 7) :
    loopBody s inp =
      match case7 (s.withChoice 7) inp.buyerIndex inp.propertyIndex with
      | some (s2, o) => some (s2, (displayMenu ++ [.str "Enter your choice: "]) ++ o)
      | none => none := by
  have e : extractInt inp.choice = (7, true) := by rw [hc]; rfl
  unfold loopBody
  simp only [e, if_true]
  rfl

/-- Unfolding of `userAt`. -/
theorem userAt_some (s : State) (i : Nat) (obj : User) (h : s.userAt i = some obj) :
    ∃ u, s.platform.getUsers[i]? = some u ∧ s.store.users[u]? = some obj := by
  unfold State.userAt at h
  split at h
  · exact ⟨_, by assumption, h⟩
  · cases h

/-- Folding of `userAt`. -/
theorem userAt_of (s : State) (i : Nat) (u : UserPtr) (h : s.platform.getUsers[i]? = some u) :
    s.userAt i = s.store.users[u]? := by
  simp only [State.userAt, h]

/-- An iteration that chooses 7 with indices in bounds and a `Buyer` at the buyer index. -/
theorem loopBody_buy_buyer (s : State) (inp : Input) (u : UserPtr) (b : Buyer)
    (hwf : WellFormed s) (hc : inp.choice = .numeral 7)
    (hi0 : 0 ≤ inp.buyerIndex)
    (hj0 : 0 ≤ inp.propertyIndex) (hj : inp.propertyIndex < s.platform.getProperties.length)
    (hu : s.platform.getUsers[inp.buyerIndex.toNat]? = some u)
    (hb : s.store.users[u]? = some (.buyer b)) :
    ∃ pre d p P, s.platform.getProperties[inp.propertyIndex.toNat]? = some p ∧
      s.store.properties[p]? = some P ∧
      purchasePrompts s = some pre ∧
      Buyer.display ((s.withChoice 7).putUser u (.buyer (b.bought p P))).store (b.bought p P) =
        some d ∧
      loopBody s inp = some ((s.withChoice 7).putUser u (.buyer (b.bought p P)),
        displayMenu ++ [.str "Enter your choice: "] ++
          (pre ++ .str "Property bought successfully!\n" :: d)) := by
  have hi : inp.buyerIndex < s.platform.getUsers.length := by
    have := (List.getElem?_eq_some.1 hu).1
    omega
  have hjn : inp.propertyIndex.toNat < s.platform.getProperties.length := by omega
  obtain ⟨p, hp⟩ : ∃ p, s.platform.getProperties[inp.propertyIndex.toNat]? = some p :=
    ⟨_, List.getElem?_eq_getElem hjn⟩
  have hp1 : p < s.store.properties.length := hwf.2.1 p (List.getElem?_mem hp)
  obtain ⟨P, hP⟩ : ∃ P, s.store.properties[p]? = some P := ⟨_, List.getElem?_eq_getElem hp1⟩
  obtain ⟨pre, hpre⟩ := purchasePrompts_some s hwf
  have hpre1 : purchasePrompts (s.withChoice 7) = some pre := hpre
  obtain ⟨d, hd, ho⟩ := purchase_buyer (s.withChoice 7) inp.buyerIndex inp.propertyIndex u b p P hwf
    ⟨hi0, hi, hj0, hj⟩ hu hb hp hP
  refine ⟨pre, d, p, P, hp, hP, hpre, hd, ?_⟩
  rw [loopBody_choice7 s inp hc]
  simp only [case7, hpre1, ho]

/-- After the object at `users[i]` is replaced, `userAt i` is the new object. -/
theorem putUser_userAt (s : State) (i : Nat) (u : UserPtr) (old obj : User)
    (hu : s.platform.getUsers[i]? = some u) (hold : s.store.users[u]? = some old) :
    (s.putUser u obj).userAt i = some obj := by
  have hlt : u < s.store.users.length := (List.getElem?_eq_some.1 hold).1
  have e : (s.putUser u obj).platform.getUsers[i]? = some u := hu
  rw [userAt_of _ i u e]
  simp only [State.putUser]
  exact List.getElem?_set_self hlt

/-- A purchase keeps the state well-formed. -/
theorem wf_putUser_bought (s : State) (u : UserPtr) (b : Buyer) (p : PropertyPtr) (P : Property)
    (hwf : WellFormed s) (hb : s.store.users[u]? = some (.buyer b))
    (hP : s.store.properties[p]? = some P) :
    WellFormed (s.putUser u (.buyer (b.bought p P))) := by
  obtain ⟨w1, w2, w3⟩ := hwf
  have hmem : User.buyer b ∈ s.store.users := List.getElem?_mem hb
  refine ⟨?_, w2, ?_⟩
  · intro x hx
    simp only [State.putUser, List.length_set]
    exact w1 x hx
  · intro x hx q hq
    simp only [State.putUser] at hx ⊢
    rcases List.mem_or_eq_of_mem_set hx with hx | rfl
    · exact w3 x hx q hq
    · simp only [User.pointers, Buyer.bought, List.mem_append, List.mem_singleton] at hq
      rcases hq with hq | rfl
      · exact w3 _ hmem q hq
      · exact (List.getElem?_eq_some.1 hP).1

/-- An iteration that chooses 1 or 2 registers the user of its input. -/
theorem loopBody_register (s : State) (inp : Input)
    (h : inp.choice = .numeral 1 ∨ inp.choice = .numeral 2) :
    ∃ o, loopBody s inp =
      some ((s.withChoice (extractInt inp.choice).1).registerUser (registeredUser inp), o) ∧
      (extractInt inp.choice).1 ≠ 8 := by
  rcases h with h | h
  · have e : extractInt inp.choice = (1, true) := by rw [h]; rfl
    refine ⟨(displayMenu ++ [.str "Enter your choice: "]) ++ [.str "Enter buyer's username: "],
      ?_, by rw [e]; decide⟩
    unfold loopBody
    simp only [e, if_true, registeredUser, h]
    rfl
  · have e : extractInt inp.choice = (2, true) := by rw [h]; rfl
    refine ⟨(displayMenu ++ [.str "Enter your choice: "]) ++ [.str "Enter seller's username: "],
      ?_, by rw [e]; decide⟩
    unfold loopBody
    simp only [e, if_true, registeredUser, h]
    rfl

/-- The loop on inputs that all choose 1 or 2. -/
theorem mainLoop_register (inputs : List Input) :
    ∀ s : State, (∀ x ∈ inputs, x.choice = .numeral 1 ∨ x.choice = .numeral 2) →
    ∃ s2 o, mainLoop s inputs = some (s2, o) ∧
      s2.platform.users = s.platform.users ++ List.range' s.store.users.length inputs.length ∧
      s2.store.users = s.store.users ++ inputs.map registeredUser ∧
      s2.platform.properties = s.platform.properties ∧
      s2.store.properties = s.store.properties := by
  induction inputs with
  | nil => intro s _; exact ⟨s, [], rfl, by simp, by simp, rfl, rfl⟩
  | cons inp rest ih =>
    intro s h
    obtain ⟨o1, h1, hne⟩ := loopBody_register s inp (h inp (List.mem_cons_self _ _))
    obtain ⟨s2, o2, h2, hu, hs, hp, hq⟩ :=
      ih ((s.withChoice (extractInt inp.choice).1).registerUser (registeredUser inp))
        (fun x hx => h x (List.mem_cons_of_mem _ hx))
    refine ⟨s2, o1 ++ o2, ?_, ?_, ?_, ?_, ?_⟩
    · have hc : ((s.withChoice (extractInt inp.choice).1).registerUser
          (registeredUser inp)).choice ≠ 8 := hne
      simp only [mainLoop, h1, if_pos hc, h2]
    · rw [hu, List.length_cons, List.range'_succ]
      simp only [State.registerUser, State.withChoice, List.length_append, List.length_singleton,
        List.append_assoc, List.singleton_append]
    · rw [hs]
      simp only [State.registerUser, State.withChoice, List.map_cons, List.append_assoc,
        List.singleton_append]
    · rw [hp]; rfl
    · rw [hq]; rfl

/-- The purchase does not assign `choice`. -/
theorem purchase_choice (s s1 : State) (i j : Int) (o : List Out)
    (h : purchase s i j = some (s1, o)) : s1.choice = s.choice := by
  unfold purchase at h
  simp only at h
  split_ifs at h
  · repeat' split at h
    all_goals (cases h; try rfl)
  · injection h with h; injection h with h _; rw [← h]

/-- No branch of the `switch` assigns `choice`. -/
theorem dispatch_choice (s s1 : State) (inp : Input) (o : List Out)
    (h : dispatch s inp = some (s1, o)) : s1.choice = s.choice := by
  unfold dispatch at h
  split_ifs at h
  · injection h with h; injection h with h _; rw [← h]
  · injection h with h; injection h with h _; rw [← h]
  · injection h with h; injection h with h _; rw [← h]
  · injection h with h; injection h with h _; rw [← h]
  · unfold case5 at h
    split at h
    · injection h with h; injection h with h _; rw [← h]
    · cases h
  · unfold case6 at h
    split at h
    · injection h with h; injection h with h _; rw [← h]
    · cases h
  · unfold case7 at h
    split at h
    · rename_i hp
      injection h with h; injection h with h _; rw [← h]
      exact purchase_choice _ _ _ _ _ hp
    · cases h
  · injection h with h; injection h with h _; rw [← h]
  · injection h with h; injection h with h _; rw [← h]

/-- After an iteration `choice` holds what the extraction stored. -/
theorem loopBody_choice (s s1 : State) (inp : Input) (o : List Out)
    (h : loopBody s inp = some (s1, o)) : s1.choice = (extractInt inp.choice).1 := by
  unfold loopBody at h
  simp only at h
  split_ifs at h
  · split at h
    · rename_i hd
      injection h with h; injection h with h _; rw [← h]
      exact dispatch_choice _ _ _ _ hd
    · cases h
  · injection h with h; injection h with h _; rw [← h]

/-- The extraction stores 8 only for the numeral 8. -/
theorem extractInt_eq_eight (t : IntText) : (extractInt t).1 = 8 ↔ t = .numeral 8 := by
  cases t with
  | other => simp [extractInt]
  | numeral n =>
    simp only [extractInt, INT_MIN, INT_MAX]
    split_ifs with h1 h2
    · constructor
      · intro h; simp at h
      · intro h; injection h with h; omega
    · constructor
      · intro h; simp at h
      · intro h; injection h with h; omega
    · constructor
      · intro h; simp only at h; rw [h]
      · intro h; injection h with h

/-- The indices written by the buyer listing are those of the users tagged "Buyer". -/
theorem mem_listBuyersFrom (st : Store) (us : List UserPtr) :
    ∀ (k : Nat) (o : List Out), listBuyersFrom st k us = some o →
      ∀ n : Nat, (Out.size n ∈ o ↔
        k ≤ n ∧ ∃ u obj, us[n - k]? = some u ∧ st.users[u]? = some obj ∧
          obj.getUserType = "Buyer") := by
  induction us with
  | nil =>
    intro k o h n
    injection h with h
    subst h
    simp
  | cons u us ih =>
    intro k o h n
    unfold listBuyersFrom at h
    split at h
    · rename_i obj rest hobj hrest
      have hrec := ih (k + 1) rest hrest n
      have hstep : ∀ m : Nat, k + 1 ≤ m → (u :: us)[m - k]? = us[m - (k + 1)]? := by
        intro m hm
        have e : m - k = (m - (k + 1)) + 1 := by omega
        rw [e, List.getElem?_cons_succ]
      split_ifs at h with htag
      · injection h with h
        subst h
        simp only [List.cons_append, List.nil_append, List.mem_cons, Out.size.injEq, hrec,
          reduceCtorEq, false_or]
        constructor
        · rintro (rfl | ⟨hk, u1, obj1, h1, h2, h3⟩)
          · exact ⟨Nat.le_refl _, u, obj, by simp, hobj, htag⟩
          · exact ⟨by omega, u1, obj1, by rw [hstep n hk]; exact h1, h2, h3⟩
        · rintro ⟨hk, u1, obj1, h1, h2, h3⟩
          by_cases hn : n = k
          · exact Or.inl hn
          · have hk1 : k + 1 ≤ n := by omega
            exact Or.inr ⟨hk1, u1, obj1, by rw [← hstep n hk1]; exact h1, h2, h3⟩
      · injection h with h
        subst h
        rw [hrec]
        constructor
        · rintro ⟨hk, u1, obj1, h1, h2, h3⟩
          exact ⟨by omega, u1, obj1, by rw [hstep n hk]; exact h1, h2, h3⟩
        · rintro ⟨hk, u1, obj1, h1, h2, h3⟩
          by_cases hn : n = k
          · subst hn
            simp only [Nat.sub_self, List.getElem?_cons_zero, Option.some.injEq] at h1
            subst h1
            rw [hobj] at h2
            injection h2 with h2
            subst h2
            exact absurd h3 htag
          · have hk1 : k + 1 ≤ n := by omega
            exact ⟨hk1, u1, obj1, by rw [← hstep n hk1]; exact h1, h2, h3⟩
    · cases h

/-- With the property index in bounds, the purchase writes the success line exactly for a buyer
index that holds a `Buyer`. -/
theorem purchase_success_iff (s : State) (i j : Int) (hwf : WellFormed s)
    (hj0 : 0 ≤ j) (hj : j < s.platform.getProperties.length) :
    (∃ s1 d, purchase s i j = some (s1, .str "Property bought successfully!\n" :: d)) ↔
      0 ≤ i ∧ ∃ b, s.userAt i.toNat = some (.buyer b) := by
  by_cases h : 0 ≤ i ∧ i < s.platform.getUsers.length ∧ 0 ≤ j ∧ j < s.platform.getProperties.length
  · have hi : i.toNat < s.platform.getUsers.length := by omega
    have hjn : j.toNat < s.platform.getProperties.length := by omega
    obtain ⟨u, hu⟩ : ∃ u, s.platform.getUsers[i.toNat]? = some u :=
      ⟨_, List.getElem?_eq_getElem hi⟩
    obtain ⟨p, hp⟩ : ∃ p, s.platform.getProperties[j.toNat]? = some p :=
      ⟨_, List.getElem?_eq_getElem hjn⟩
    have hu1 : u < s.store.users.length := hwf.1 u (List.getElem?_mem hu)
    have hp1 : p < s.store.properties.length := hwf.2.1 p (List.getElem?_mem hp)
    obtain ⟨obj, hobj⟩ : ∃ obj, s.store.users[u]? = some obj := ⟨_, List.getElem?_eq_getElem hu1⟩
    obtain ⟨P, hP⟩ : ∃ P, s.store.properties[p]? = some P := ⟨_, List.getElem?_eq_getElem hp1⟩
    rw [userAt_of s _ u hu, hobj]
    cases obj with
    | buyer b =>
      obtain ⟨d, -, ho⟩ := purchase_buyer s i j u b p P hwf h hu hobj hp hP
      exact ⟨fun _ => ⟨h.1, b, rfl⟩, fun _ => ⟨_, d, ho⟩⟩
    | seller sl =>
      rw [purchase_seller s i j u sl h hu hobj]
      constructor
      · rintro ⟨s1, d, hd⟩
        injection hd with hd
        injection hd with _ hd
        injection hd with hd _
        injection hd with hd
        exact absurd hd (by decide)
      · rintro ⟨-, b, hb⟩
        cases hb
  · rw [purchase_invalid_indices s i j h]
    constructor
    · rintro ⟨s1, d, hd⟩
      injection hd with hd
      injection hd with _ hd
      injection hd with hd _
      injection hd with hd
      exact absurd hd (by decide)
    · rintro ⟨hi0, b, hb⟩
      obtain ⟨u, hu, -⟩ := userAt_some s _ _ hb
      have := (List.getElem?_eq_some.1 hu).1
      exact absurd ⟨hi0, by omega, hj0, hj⟩ h

/-- Success of the iteration that chooses 7, in terms of its `if`. -/
theorem loopBody_buy_success_iff (s : State) (inp : Input) (hc : inp.choice = .numeral 7)
    (pre0 : List Out) (hpre0 : purchasePrompts s = some pre0) :
    (∃ s1 pre d, purchasePrompts s = some pre ∧
      loopBody s inp = some (s1, displayMenu ++ [.str "Enter your choice: "] ++
        (pre ++ .str "Property bought successfully!\n" :: d))) ↔
    ∃ s1 d, purchase (s.withChoice 7) inp.buyerIndex inp.propertyIndex =
      some (s1, .str "Property bought successfully!\n" :: d) := by
  have hpre1 : purchasePrompts (s.withChoice 7) = some pre0 := hpre0
  constructor
  · rintro ⟨s1, pre, d, hpre, hl⟩
    rw [hpre0] at hpre
    injection hpre with hpre
    subst hpre
    rw [loopBody_choice7 s inp hc] at hl
    cases hq : purchase (s.withChoice 7) inp.buyerIndex inp.propertyIndex with
    | none => simp only [case7, hpre1, hq] at hl; cases hl
    | some r =>
      obtain ⟨s2, o2⟩ := r
      simp only [case7, hpre1, hq] at hl
      injection hl with hl
      injection hl with h1 h2
      have h3 := List.append_cancel_left (List.append_cancel_left h2)
      exact ⟨s2, d, by rw [h3]⟩
  · rintro ⟨s1, d, hp⟩
    refine ⟨s1, pre0, d, hpre0, ?_⟩
    rw [loopBody_choice7 s inp hc]
    simp only [case7, hpre1, hp]

/-- The purchase creates no property object. -/
theorem purchase_properties (s s1 : State) (i j : Int) (o : List Out)
    (h : purchase s i j = some (s1, o)) : s1.store.properties = s.store.properties := by
  unfold purchase at h
  simp only at h
  split_ifs at h
  · repeat' split at h
    all_goals (cases h; try rfl)
  · cases h; rfl

/-- Only `case 3` and `case 4` create a property object, with the entered price. -/
theorem dispatch_properties (s s1 : State) (inp : Input) (o : List Out)
    (h : dispatch s inp = some (s1, o)) :
    s1.store.properties = s.store.properties ∨
    ∃ P, s1.store.properties = s.store.properties ++ [P] ∧ (s.choice = 3 ∨ s.choice = 4) ∧
      P.getPrice = inp.price := by
  unfold dispatch at h
  split_ifs at h with h1 h2 h3 h4
  · cases h; exact Or.inl rfl
  · cases h; exact Or.inl rfl
  · cases h; exact Or.inr ⟨_, rfl, Or.inl h3, rfl⟩
  · cases h; exact Or.inr ⟨_, rfl, Or.inr h4, rfl⟩
  · unfold case5 at h
    split at h
    · cases h; exact Or.inl rfl
    · cases h
  · unfold case6 at h
    split at h
    · cases h; exact Or.inl rfl
    · cases h
  · unfold case7 at h
    split at h
    · rename_i hp
      cases h
      exact Or.inl (purchase_properties _ _ _ _ _ hp)
    · cases h
  · cases h; exact Or.inl rfl
  · cases h; exact Or.inl rfl

/-- An iteration creates a property object only on the numerals 3 and 4, with the entered price.
-/
theorem loopBody_properties (s s1 : State) (inp : Input) (o : List Out)
    (h : loopBody s inp = some (s1, o)) :
    s1.store.properties = s.store.properties ∨
    ∃ P, s1.store.properties = s.store.properties ++ [P] ∧
      (inp.choice = .numeral 3 ∨ inp.choice = .numeral 4) ∧ P.getPrice = inp.price := by
  unfold loopBody at h
  simp only at h
  split_ifs at h with hg
  · split at h
    · rename_i hd
      cases h
      rcases dispatch_properties _ _ _ _ hd with e | ⟨P, e, hc, hP⟩
      · exact Or.inl e
      · refine Or.inr ⟨P, e, ?_, hP⟩
        have hnum := extractInt_good _ hg
        rcases hc with hc | hc
        · left; rw [hnum]; exact congrArg IntText.numeral hc
        · right; rw [hnum]; exact congrArg IntText.numeral hc
    · cases h
  · cases h; exact Or.inl rfl

/-- With non-negative prices no iteration lowers a bill, and a buyer that appears has bill 0. -/
theorem step_monotone (s : State) (inp : Input) (hwf : WellFormed s) (hprice : PricesNonneg s) :
    ∃ s1 o, loopBody s inp = some (s1, o) ∧
      (∀ (i : Nat) (b : Buyer), s.userAt i = some (.buyer b) →
        ∃ b1, s1.userAt i = some (.buyer b1) ∧ b.calculateTotalBill ≤ b1.calculateTotalBill) ∧
      (∀ (i : Nat) (b1 : Buyer), s.userAt i = none → s1.userAt i = some (.buyer b1) →
        b1.calculateTotalBill = 0) := by
  obtain ⟨s1, o, hl, he⟩ := loopBody_effect s inp hwf
  refine ⟨s1, o, hl, ?_, ?_⟩
  · intro i b hb
    obtain ⟨u, hu, hbu⟩ := userAt_some s i _ hb
    have hult : u < s.store.users.length := (List.getElem?_eq_some.1 hbu).1
    have hilt : i < s.platform.users.length := (List.getElem?_eq_some.1 hu).1
    rcases he with ⟨d, rfl⟩ | ⟨d, n, rfl⟩ | ⟨d, n, rfl⟩ | ⟨d, P, rfl⟩ |
      ⟨d, u0, b0, p, P, -, h2, -, h4, rfl⟩
    · exact ⟨b, hb, le_refl _⟩
    · refine ⟨b, ?_, le_refl _⟩
      have e : ((s.withChoice d).registerUser (.buyer (Buyer.new n))).platform.getUsers[i]? =
          some u := by
        show (s.platform.users ++ [s.store.users.length])[i]? = some u
        rw [List.getElem?_append_left hilt]; exact hu
      rw [userAt_of _ i u e]
      show (s.store.users ++ [_])[u]? = _
      rw [List.getElem?_append_left hult]; exact hbu
    · refine ⟨b, ?_, le_refl _⟩
      have e : ((s.withChoice d).registerUser (.seller (Seller.new n))).platform.getUsers[i]? =
          some u := by
        show (s.platform.users ++ [s.store.users.length])[i]? = some u
        rw [List.getElem?_append_left hilt]; exact hu
      rw [userAt_of _ i u e]
      show (s.store.users ++ [_])[u]? = _
      rw [List.getElem?_append_left hult]; exact hbu
    · exact ⟨b, hb, le_refl _⟩
    · have e : ((s.withChoice d).putUser u0 (.buyer (b0.bought p P))).platform.getUsers[i]? =
          some u := hu
      rw [userAt_of _ i u e]
      by_cases hsame : u0 = u
      · subst hsame
        have hbb : b0 = b := by
          rw [hbu] at h2
          injection h2 with h2
          injection h2 with h2
          exact h2.symm
        subst hbb
        refine ⟨b0.bought p P, ?_, ?_⟩
        · show (s.store.users.set u0 _)[u0]? = _
          exact List.getElem?_set_self hult
        · have hP0 : 0 ≤ P.getPrice := hprice P (List.getElem?_mem h4)
          have hbill : P.calculateBill = P.getPrice := by cases P <;> rfl
          show b0.totalBill ≤ b0.totalBill + P.calculateBill
          rw [hbill]
          exact le_add_of_nonneg_right hP0
      · refine ⟨b, ?_, le_refl _⟩
        show (s.store.users.set u0 _)[u]? = _
        rw [List.getElem?_set_ne hsame]; exact hbu
  · intro i b1 hnone hsome
    have hcases : s.platform.users[i]? = none ∨
        ∃ u, s.platform.users[i]? = some u ∧ s.store.users[u]? = none := by
      unfold State.userAt at hnone
      split at hnone
      · rename_i u hu
        exact Or.inr ⟨u, hu, hnone⟩
      · rename_i hu
        exact Or.inl hu
    have hi : s.platform.users.length ≤ i := by
      rcases hcases with h | ⟨u, hu, hn⟩
      · exact List.getElem?_eq_none_iff.1 h
      · have h1 := hwf.1 u (List.getElem?_mem hu)
        have h2 := List.getElem?_eq_none_iff.1 hn
        exact absurd h1 (Nat.not_lt.2 h2)
    have hnone1 : s.platform.users[i]? = none := List.getElem?_eq_none_iff.2 hi
    rcases he with ⟨d, rfl⟩ | ⟨d, n, rfl⟩ | ⟨d, n, rfl⟩ | ⟨d, P, rfl⟩ |
      ⟨d, u0, b0, p, P, -, h2, -, h4, rfl⟩
    · rw [show (s.withChoice d).userAt i = s.userAt i from rfl, hnone] at hsome
      cases hsome
    · obtain ⟨u, hu, hbu⟩ := userAt_some _ i _ hsome
      have hu1 : (s.platform.users ++ [s.store.users.length])[i]? = some u := hu
      have hbu1 : (s.store.users ++ [User.buyer (Buyer.new n)])[u]? = some (.buyer b1) := hbu
      rw [List.getElem?_append_right hi] at hu1
      have hu2 : u = s.store.users.length := by
        rcases hidx : i - s.platform.users.length with _ | m
        · rw [hidx] at hu1
          simp only [List.getElem?_cons_zero, Option.some.injEq] at hu1
          exact hu1.symm
        · rw [hidx] at hu1
          simp at hu1
      subst hu2
      rw [List.getElem?_append_right (Nat.le_refl _), Nat.sub_self] at hbu1
      simp only [List.getElem?_cons_zero, Option.some.injEq, User.buyer.injEq] at hbu1
      rw [← hbu1]
      rfl
    · obtain ⟨u, hu, hbu⟩ := userAt_some _ i _ hsome
      have hu1 : (s.platform.users ++ [s.store.users.length])[i]? = some u := hu
      have hbu1 : (s.store.users ++ [User.seller (Seller.new n)])[u]? = some (.buyer b1) := hbu
      rw [List.getElem?_append_right hi] at hu1
      have hu2 : u = s.store.users.length := by
        rcases hidx : i - s.platform.users.length with _ | m
        · rw [hidx] at hu1
          simp only [List.getElem?_cons_zero, Option.some.injEq] at hu1
          exact hu1.symm
        · rw [hidx] at hu1
          simp at hu1
      subst hu2
      rw [List.getElem?_append_right (Nat.le_refl _), Nat.sub_self] at hbu1
      simp at hbu1
    · obtain ⟨u, hu, -⟩ := userAt_some _ i _ hsome
      have hu1 : s.platform.users[i]? = some u := hu
      rw [hnone1] at hu1
      cases hu1
    · obtain ⟨u, hu, -⟩ := userAt_some _ i _ hsome
      have hu1 : s.platform.users[i]? = some u := hu
      rw [hnone1] at hu1
      cases hu1

/-- An iteration that enters a non-negative price keeps all prices non-negative. -/
theorem prices_step (s s1 : State) (inp : Input) (o : List Out)
    (hq : inp.choice = .numeral 3 ∨ inp.choice = .numeral 4 → 0 ≤ inp.price)
    (hprice : PricesNonneg s) (h : loopBody s inp = some (s1, o)) : PricesNonneg s1 := by
  intro P hP
  rcases loopBody_properties s s1 inp o h with e | ⟨P0, e, hc, hp⟩
  · rw [e] at hP
    exact hprice P hP
  · rw [e, List.mem_append, List.mem_singleton] at hP
    rcases hP with hP | rfl
    · exact hprice P hP
    · rw [hp]
      exact hq hc

/-- When every entered price is non-negative, `main` ends in a well-formed state with non-
negative prices. -/
theorem main_inv_prices (c0 : Int) (inputs : List Input)
    (hq : ∀ x ∈ inputs, x.choice = .numeral 3 ∨ x.choice = .numeral 4 → 0 ≤ x.price) :
    ∃ s o, main c0 inputs = some (s, o) ∧ WellFormed s ∧ PricesNonneg s :=
  mainLoop_invariant (fun s => Inv s ∧ PricesNonneg s)
    (fun x => x.choice = .numeral 3 ∨ x.choice = .numeral 4 → 0 ≤ x.price)
    (fun s inp hx hs => by
      obtain ⟨s1, o, h1, h2⟩ := loopBody_effect s inp hs.1.1
      exact ⟨s1, o, h1, inv_effect s s1 hs.1 h2, prices_step s s1 inp o hx hs.2 h1⟩)
    inputs (initial c0) hq
    ⟨inv_initial c0, fun P hP => by simp [initial] at hP⟩
  |> fun ⟨s, o, h, hi, hp⟩ => ⟨s, o, h, hi.1, hp⟩

/-- Every state that `main` reaches is well-formed. -/
theorem main_wellFormed (c0 : Int) (inputs : List Input) :
    ∃ s o, main c0 inputs = some (s, o) ∧ WellFormed s := by
  obtain ⟨s, o, h, hi⟩ := main_inv c0 inputs
  exact ⟨s, o, h, hi.1⟩

/-- The state `aliceState` is reached by registering alice, then the property. -/
theorem main_reaches_aliceState :
    (main 0 [addBuyerInput "alice", addResidentialInput "Oak" 250000 3]).map Prod.fst =
      some aliceState := rfl

/-- The state `oneUserState` is reached by registering alice. -/
theorem main_reaches_oneUserState :
    (main 0 [addBuyerInput "alice"]).map Prod.fst = some oneUserState := rfl

/-- The state `sellerState` is reached by registering bob, then the property. -/
theorem main_reaches_sellerState :
    (main 0 [addSellerInput "bob", addCommercialInput "Mall" 90000 "shop"]).map Prod.fst =
      some sellerState := rfl

/-! ## Verified properties -/

/-- C1: a purchase (menu choice 7) with both indices in bounds and a Buyer at
the buyer index (`userAt` is defined there, so the index is below the number
of users) succeeds: it writes the listings, the prompts, "Property bought
successfully!" and the display of the buyer, and afterwards that buyer's owned
list is the old list with the pointer `properties[j]` appended and its
`totalBill` is the old one plus `calculateBill` of that property. -/
theorem buy_postcondition (s : State) (inp : Input) (b : Buyer)
    (hwf : WellFormed s) (hc : inp.choice = .numeral 7)
    (hi0 : 0 ≤ inp.buyerIndex)
    (hj0 : 0 ≤ inp.propertyIndex) (hj : inp.propertyIndex < s.platform.getProperties.length)
    (hb : s.userAt inp.buyerIndex.toNat = some (.buyer b)) :
    ∃ s1 pre d p P, purchasePrompts s = some pre ∧
      loopBody s inp = some (s1, displayMenu ++ [.str "Enter your choice: "] ++
        (pre ++ .str "Property bought successfully!\n" :: d)) ∧
      s.platform.getProperties[inp.propertyIndex.toNat]? = some p ∧
      s.store.properties[p]? = some P ∧
      s1.userAt inp.buyerIndex.toNat =
        some (.buyer { b with ownedProperties := b.ownedProperties ++ [p],
                              totalBill := b.totalBill + P.calculateBill }) ∧
      s1.store.properties = s.store.properties ∧
      Buyer.display s1.store { b with ownedProperties := b.ownedProperties ++ [p],
                                      totalBill := b.totalBill + P.calculateBill } = some d := by
  obtain ⟨u, hu, hbu⟩ := userAt_some s _ _ hb
  obtain ⟨pre, d, p, P, hp, hP, hpre, hd, hl⟩ :=
    loopBody_buy_buyer s inp u b hwf hc hi0 hj0 hj hu hbu
  exact ⟨_, pre, d, p, P, hpre, hl, hp, hP, putUser_userAt (s.withChoice 7) _ u _ _ hu hbu, rfl, hd⟩

/-- C1, the scenario of the specification: "alice" at index 0 with bill 0, a
residential property priced 250000 at index 0, purchase (0, 0): the bill
becomes 250000 and the display after the purchase shows that one property. -/
theorem buy_postcondition_witness :
    WellFormed aliceState ∧
    ∃ s1 pre d, loopBody aliceState (buyInput 0 0) =
        some (s1, displayMenu ++ [.str "Enter your choice: "] ++
          (pre ++ .str "Property bought successfully!\n" :: d)) ∧
      s1.userAt 0 = some (.buyer ⟨"alice", "Buyer", [0], 250000⟩) ∧
      d = [.str "Buyer", .str " User: ", .str "alice", .endl,
           .str "Owned Properties:", .endl,
           .str "Residential Property: ", .str "Oak", .str ", Bedrooms: ", .int 3,
           .str ", Price: $", .dbl 250000, .endl,
           .str "Total Bill: $", .dbl 250000, .endl] := by
  refine ⟨by decide, ?_⟩
  obtain ⟨s1, pre, d, p, P, -, h1, hp, hP, hu, hprops, hd⟩ :=
    buy_postcondition aliceState (buyInput 0 0) (Buyer.new "alice") (by decide) rfl (by decide)
      (by decide) (by decide) rfl
  have e1 : p = 0 := by
    have : (some 0 : Option Nat) = some p := hp
    injection this with this
    exact this.symm
  subst e1
  have e2 : P = .residential ⟨"Oak", 250000, 3⟩ := by
    have : some (Property.residential ⟨"Oak", 250000, 3⟩) = some P := hP
    injection this with this
    exact this.symm
  subst e2
  have e3 : (buyInput 0 0).buyerIndex.toNat = 0 := rfl
  have e4 : ({ Buyer.new "alice" with
      ownedProperties := (Buyer.new "alice").ownedProperties ++ [0],
      totalBill := (Buyer.new "alice").totalBill +
        (Property.residential ⟨"Oak", 250000, 3⟩).calculateBill } : Buyer) =
      ⟨"alice", "Buyer", [0], 250000⟩ := by
    simp [Buyer.new, Property.calculateBill, ResidentialProperty.calculateBill]
  rw [e3, e4] at hu
  rw [e4] at hd
  refine ⟨s1, pre, d, h1, hu, ?_⟩
  have e5 : Buyer.display s1.store ⟨"alice", "Buyer", [0], 250000⟩ =
      Buyer.display aliceState.store ⟨"alice", "Buyer", [0], 250000⟩ := by
    unfold Buyer.display
    rw [displayEach_congr s1.store aliceState.store _ hprops]
  rw [e5] at hd
  have e6 : Buyer.display aliceState.store ⟨"alice", "Buyer", [0], 250000⟩ = some _ := rfl
  rw [e6] at hd
  injection hd with hd
  exact hd.symm

/-- C2: a purchase (menu choice 7) with an index out of range writes the
listings, the prompts and "Invalid indices!", and leaves the free store and
the platform as they were. -/
theorem buy_out_of_range (s : State) (inp : Input)
    (hwf : WellFormed s) (hc : inp.choice = .numeral 7)
    (h : inp.buyerIndex < 0 ∨ (s.platform.getUsers.length : Int) ≤ inp.buyerIndex ∨
         inp.propertyIndex < 0 ∨ (s.platform.getProperties.length : Int) ≤ inp.propertyIndex) :
    ∃ s1 pre, purchasePrompts s = some pre ∧
      loopBody s inp = some (s1, displayMenu ++ [.str "Enter your choice: "] ++
        (pre ++ [.str "Invalid indices!\n"])) ∧
      s1.store = s.store ∧ s1.platform = s.platform := by
  obtain ⟨pre, hpre⟩ := purchasePrompts_some s hwf
  have hpre1 : purchasePrompts (s.withChoice 7) = some pre := hpre
  have hn : ¬ (0 ≤ inp.buyerIndex ∧ inp.buyerIndex < (s.withChoice 7).platform.getUsers.length ∧
      0 ≤ inp.propertyIndex ∧
      inp.propertyIndex < (s.withChoice 7).platform.getProperties.length) := by
    simp only [State.withChoice]
    omega
  refine ⟨s.withChoice 7, pre, hpre, ?_, rfl, rfl⟩
  rw [loopBody_choice7 s inp hc]
  simp only [case7, hpre1, purchase_invalid_indices _ _ _ hn]

/-- C2, the scenario of the specification: one registered user with bill 0,
buyer index 5; the bill is 0 afterwards. -/
theorem buy_out_of_range_witness :
    WellFormed oneUserState ∧
    ∃ s1 pre, purchasePrompts oneUserState = some pre ∧
      loopBody oneUserState (buyInput 5 0) = some (s1, displayMenu ++ [.str "Enter your choice: "] ++
        (pre ++ [.str "Invalid indices!\n"])) ∧
      s1.userAt 0 = some (.buyer ⟨"alice", "Buyer", [], 0⟩) := by
  refine ⟨by decide, ?_⟩
  obtain ⟨s1, pre, h1, h2, h3, h4⟩ :=
    buy_out_of_range oneUserState (buyInput 5 0) (by decide) rfl (by decide)
  refine ⟨s1, pre, h1, h2, ?_⟩
  unfold State.userAt
  rw [h3, h4]
  rfl

/-- C3: a purchase (menu choice 7) with both indices in bounds and a Seller at
the buyer index writes "Invalid buyer or property!" and leaves the free store
and the platform as they were. -/
theorem buy_through_seller (s : State) (inp : Input) (sl : Seller)
    (hwf : WellFormed s) (hc : inp.choice = .numeral 7)
    (hi0 : 0 ≤ inp.buyerIndex) (hi : inp.buyerIndex < s.platform.getUsers.length)
    (hj0 : 0 ≤ inp.propertyIndex) (hj : inp.propertyIndex < s.platform.getProperties.length)
    (hs : s.userAt inp.buyerIndex.toNat = some (.seller sl)) :
    ∃ s1 pre, purchasePrompts s = some pre ∧
      loopBody s inp = some (s1, displayMenu ++ [.str "Enter your choice: "] ++
        (pre ++ [.str "Invalid buyer or property!\n"])) ∧
      s1.store = s.store ∧ s1.platform = s.platform := by
  obtain ⟨pre, hpre⟩ := purchasePrompts_some s hwf
  have hpre1 : purchasePrompts (s.withChoice 7) = some pre := hpre
  obtain ⟨u, hu, hsu⟩ := userAt_some s _ _ hs
  refine ⟨s.withChoice 7, pre, hpre, ?_, rfl, rfl⟩
  rw [loopBody_choice7 s inp hc]
  simp only [case7, hpre1,
    purchase_seller (s.withChoice 7) _ _ u sl ⟨hi0, hi, hj0, hj⟩ hu hsu]

/-- C3 at a state with seller "bob" at index 0 and one property. -/
theorem buy_through_seller_witness :
    WellFormed sellerState ∧
    ∃ s1 pre, purchasePrompts sellerState = some pre ∧
      loopBody sellerState (buyInput 0 0) = some (s1, displayMenu ++ [.str "Enter your choice: "] ++
        (pre ++ [.str "Invalid buyer or property!\n"])) ∧
      s1.store = sellerState.store ∧ s1.platform = sellerState.platform :=
  ⟨by decide, buy_through_seller sellerState (buyInput 0 0) (Seller.new "bob") (by decide) rfl
    (by decide) (by decide) (by decide) (by decide) rfl⟩

/-- C4: a successful purchase changes the object of the buying user only, and
there only the owned list and the bill: the platform (both vectors) and the
property objects are the same, the number of user objects is the same, every
object at another address (so every Seller) is the same, the buyer keeps its
name and tag, `properties[j]` is still listed, and a following purchase of
index `j` by any Buyer index, the same one included, succeeds again. -/
theorem buy_frame (s : State) (inp : Input) (b : Buyer)
    (hwf : WellFormed s) (hc : inp.choice = .numeral 7)
    (hi0 : 0 ≤ inp.buyerIndex)
    (hj0 : 0 ≤ inp.propertyIndex) (hj : inp.propertyIndex < s.platform.getProperties.length)
    (hb : s.userAt inp.buyerIndex.toNat = some (.buyer b)) :
    ∃ s1 o u b1 p, loopBody s inp = some (s1, o) ∧
      s.platform.getUsers[inp.buyerIndex.toNat]? = some u ∧
      s1.platform = s.platform ∧
      s1.store.properties = s.store.properties ∧
      s1.store.users.length = s.store.users.length ∧
      (∀ a : UserPtr, a ≠ u → s1.store.users[a]? = s.store.users[a]?) ∧
      (∀ (a : UserPtr) (sl : Seller), s.store.users[a]? = some (.seller sl) →
        s1.store.users[a]? = some (.seller sl)) ∧
      s1.store.users[u]? = some (.buyer b1) ∧
      b1.username = b.username ∧ b1.userType = b.userType ∧
      s1.platform.getProperties[inp.propertyIndex.toNat]? = some p ∧
      s1.propertyAt inp.propertyIndex.toNat = s.propertyAt inp.propertyIndex.toNat ∧
      (∀ (inp2 : Input) (bk : Buyer), inp2.choice = .numeral 7 →
        inp2.propertyIndex = inp.propertyIndex → 0 ≤ inp2.buyerIndex →
        s1.userAt inp2.buyerIndex.toNat = some (.buyer bk) →
        ∃ s2 pre2 d2 P, purchasePrompts s1 = some pre2 ∧
          loopBody s1 inp2 = some (s2, displayMenu ++ [.str "Enter your choice: "] ++
            (pre2 ++ .str "Property bought successfully!\n" :: d2)) ∧
          s1.store.properties[p]? = some P ∧
          s2.userAt inp2.buyerIndex.toNat =
            some (.buyer { bk with ownedProperties := bk.ownedProperties ++ [p],
                                   totalBill := bk.totalBill + P.calculateBill })) := by
  obtain ⟨u, hu, hbu⟩ := userAt_some s _ _ hb
  obtain ⟨pre, d, p, P, hp, hP, -, -, hl⟩ := loopBody_buy_buyer s inp u b hwf hc hi0 hj0 hj hu hbu
  have hlt : u < s.store.users.length := (List.getElem?_eq_some.1 hbu).1
  have hwf1 : WellFormed ((s.withChoice 7).putUser u (.buyer (b.bought p P))) :=
    wf_putUser_bought (s.withChoice 7) u b p P hwf hbu hP
  refine ⟨_, _, u, b.bought p P, p, hl, hu, rfl, rfl, ?_, ?_, ?_, ?_, rfl, rfl, hp, rfl, ?_⟩
  · simp only [State.putUser, List.length_set]
    rfl
  · intro a ha
    simp only [State.putUser]
    exact List.getElem?_set_ne (Ne.symm ha)
  · intro a sl ha
    have hne : u ≠ a := by
      rintro rfl
      rw [hbu] at ha
      cases ha
    simp only [State.putUser]
    rw [List.getElem?_set_ne hne]
    exact ha
  · simp only [State.putUser]
    exact List.getElem?_set_self hlt
  · intro inp2 bk hc2 hj2 hk0 hbk
    obtain ⟨uk, huk, hbuk⟩ := userAt_some _ _ _ hbk
    have hj1 : inp2.propertyIndex <
        ((s.withChoice 7).putUser u (.buyer (b.bought p P))).platform.getProperties.length := by
      rw [hj2]; exact hj
    obtain ⟨pre2, d2, p2, P2, hp2, hP2, hpre2, -, hl2⟩ :=
      loopBody_buy_buyer _ inp2 uk bk hwf1 hc2 hk0 (by rw [hj2]; exact hj0) hj1 huk hbuk
    have e : p2 = p := by
      rw [hj2] at hp2
      have hp3 : s.platform.getProperties[inp.propertyIndex.toNat]? = some p2 := hp2
      rw [hp] at hp3
      injection hp3 with hp3
      exact hp3.symm
    subst e
    exact ⟨_, pre2, d2, P2, hpre2, hl2, hP2, putUser_userAt _ _ uk _ _ huk hbuk⟩

/-- C4 at the scenario of C1: "alice" buys property 0. -/
theorem buy_frame_witness :
    WellFormed aliceState ∧
    ∃ s1 o, loopBody aliceState (buyInput 0 0) = some (s1, o) ∧
      s1.platform = aliceState.platform ∧ s1.store.properties = aliceState.store.properties := by
  refine ⟨by decide, ?_⟩
  obtain ⟨s1, o, u, b1, p, h1, -, h2, h3, -⟩ :=
    buy_frame aliceState (buyInput 0 0) (Buyer.new "alice") (by decide) rfl (by decide)
      (by decide) (by decide) rfl
  exact ⟨s1, o, h1, h2, h3⟩

/-- C5: run from the empty registry on n inputs that each choose 1 (add buyer)
or 2 (add seller), `main` ends with exactly n users and the k-th user has the
k-th username and the tag "Buyer" or "Seller" of the k-th command; and every
`addUser` appends one pointer at the end of `users` and leaves the entries
before it, and `properties`, as they were. -/
theorem registration_count_and_order (c0 : Int) (inputs : List Input)
    (h : ∀ x ∈ inputs, x.choice = .numeral 1 ∨ x.choice = .numeral 2) :
    (∃ s o, main c0 inputs = some (s, o) ∧
      s.platform.getUsers.length = inputs.length ∧
      ∀ (k : Nat) (inp : Input), inputs[k]? = some inp →
        ∃ obj, s.userAt k = some obj ∧ obj.getUsername = inp.username ∧
          obj.getUserType = (if inp.choice = .numeral 1 then "Buyer" else "Seller")) ∧
    (∀ (p : RealEstatePlatform) (user : UserPtr),
      (p.addUser user).getUsers = p.getUsers ++ [user] ∧
      (p.addUser user).getProperties = p.getProperties) := by
  refine ⟨?_, fun p user => ⟨rfl, rfl⟩⟩
  obtain ⟨s, o, hm, hu, hs, -, -⟩ := mainLoop_register inputs (initial c0) h
  simp only [initial, List.nil_append, List.length_nil] at hu hs
  refine ⟨s, o, hm, ?_, ?_⟩
  · show s.platform.users.length = _
    rw [hu, List.length_range']
  · intro k inp hk
    have hlt : k < inputs.length := (List.getElem?_eq_some.1 hk).1
    have e1 : s.platform.getUsers[k]? = some k := by
      show s.platform.users[k]? = _
      rw [hu, List.getElem?_range' _ _ hlt]
      simp
    refine ⟨registeredUser inp, ?_, ?_, ?_⟩
    · rw [userAt_of s k k e1, hs, List.getElem?_map, hk]
      rfl
    · unfold registeredUser
      split_ifs <;> rfl
    · unfold registeredUser
      split_ifs <;> rfl

/-- C5 on the commands add buyer "alice", add seller "bob", add buyer "carol". -/
theorem registration_count_and_order_witness :
    (∃ s o, main 0 [addBuyerInput "alice", addSellerInput "bob", addBuyerInput "carol"] =
        some (s, o) ∧
      s.platform.getUsers.length = 3 ∧
      ∀ (k : Nat) (inp : Input),
        [addBuyerInput "alice", addSellerInput "bob", addBuyerInput "carol"][k]? = some inp →
        ∃ obj, s.userAt k = some obj ∧ obj.getUsername = inp.username ∧
          obj.getUserType = (if inp.choice = .numeral 1 then "Buyer" else "Seller")) ∧
    (∀ (p : RealEstatePlatform) (user : UserPtr),
      (p.addUser user).getUsers = p.getUsers ++ [user] ∧
      (p.addUser user).getProperties = p.getProperties) :=
  registration_count_and_order 0 [addBuyerInput "alice", addSellerInput "bob", addBuyerInput "carol"]
    (by decide)

/-- C6, refuted as stated: after "add buyer alice" and "add residential
property" with the entered price -250000 the bill of alice is 0, and the
purchase (0, 0) that follows lowers it to -250000. -/
theorem total_bill_decreases :
    (main 0 [addBuyerInput "alice", addResidentialInput "Oak" (-250000) 3]).map
        (fun r => r.1.userAt 0) = some (some (.buyer ⟨"alice", "Buyer", [], 0⟩)) ∧
    (main 0 [addBuyerInput "alice", addResidentialInput "Oak" (-250000) 3, buyInput 0 0]).map
        (fun r => r.1.userAt 0) = some (some (.buyer ⟨"alice", "Buyer", [0], -250000⟩)) ∧
    (⟨"alice", "Buyer", [0], -250000⟩ : Buyer).calculateTotalBill <
      (⟨"alice", "Buyer", [], 0⟩ : Buyer).calculateTotalBill := by
  refine ⟨rfl, ?_, by simp [Buyer.calculateTotalBill]⟩
  have h : (main 0 [addBuyerInput "alice", addResidentialInput "Oak" (-250000) 3,
      buyInput 0 0]).map (fun r => r.1.userAt 0) =
      some (some (.buyer ⟨"alice", "Buyer", [0], 0 + (-250000)⟩)) := rfl
  rw [h]
  simp

/-- C6, amended: when every price entered so far with "add property" is
non-negative, the next iteration, whatever its input, leaves every registered
buyer registered with a `calculateTotalBill()` not below the one before, and a
buyer that appears in this iteration has `calculateTotalBill()` 0. -/
theorem total_bill_monotone (c0 : Int) (inputs : List Input) (inp : Input)
    (hprice : ∀ x ∈ inputs, x.choice = .numeral 3 ∨ x.choice = .numeral 4 → 0 ≤ x.price) :
    ∃ s o s1 o1, main c0 inputs = some (s, o) ∧ loopBody s inp = some (s1, o1) ∧
      (∀ (i : Nat) (b : Buyer), s.userAt i = some (.buyer b) →
        ∃ b1, s1.userAt i = some (.buyer b1) ∧ b.calculateTotalBill ≤ b1.calculateTotalBill) ∧
      (∀ (i : Nat) (b1 : Buyer), s.userAt i = none → s1.userAt i = some (.buyer b1) →
        b1.calculateTotalBill = 0) := by
  obtain ⟨s, o, hm, hwf, hp⟩ := main_inv_prices c0 inputs hprice
  obtain ⟨s1, o1, hl, h1, h2⟩ := step_monotone s inp hwf hp
  exact ⟨s, o, s1, o1, hm, hl, h1, h2⟩

/-- C6 amended, on "add buyer alice", "add residential property" priced 250000,
then the purchase (0, 0). -/
theorem total_bill_monotone_witness :
    ∃ s o s1 o1,
      main 0 [addBuyerInput "alice", addResidentialInput "Oak" 250000 3] = some (s, o) ∧
      loopBody s (buyInput 0 0) = some (s1, o1) ∧
      (∀ (i : Nat) (b : Buyer), s.userAt i = some (.buyer b) →
        ∃ b1, s1.userAt i = some (.buyer b1) ∧ b.calculateTotalBill ≤ b1.calculateTotalBill) ∧
      (∀ (i : Nat) (b1 : Buyer), s.userAt i = none → s1.userAt i = some (.buyer b1) →
        b1.calculateTotalBill = 0) :=
  total_bill_monotone 0 [addBuyerInput "alice", addResidentialInput "Oak" 250000 3] (buyInput 0 0)
    (by
      intro x hx _
      simp only [List.mem_cons, List.mem_singleton, List.not_mem_nil, or_false] at hx
      rcases hx with rfl | rfl <;> simp [addBuyerInput, addResidentialInput])

/-- C7: for every property, of either class, `calculateBill()` equals
`getPrice()`, and both equal the price passed to the constructor. -/
theorem identity_billing :
    (∀ P : Property, P.calculateBill = P.getPrice) ∧
    (∀ (loc : String) (pr : ℚ) (beds : Int),
      (Property.residential ⟨loc, pr, beds⟩).calculateBill = pr ∧
      (Property.residential ⟨loc, pr, beds⟩).getPrice = pr) ∧
    (∀ (loc : String) (pr : ℚ) (type : String),
      (Property.commercial ⟨loc, pr, type⟩).calculateBill = pr ∧
      (Property.commercial ⟨loc, pr, type⟩).getPrice = pr) := by
  refine ⟨fun P => ?_, fun _ _ _ => ⟨rfl, rfl⟩, fun _ _ _ => ⟨rfl, rfl⟩⟩
  cases P <;> rfl

/-- C8: when the text at the menu prompt is not one of the numerals 1..8, the
iteration writes the menu and either "Invalid choice. Please try again." or
the error line of the `catch`, leaves the free store and the platform as they
were, ends with `choice != 8`, and the loop goes on with the next input; and
an iteration ends with `choice == 8` exactly when its input is the numeral 8. -/
theorem invalid_choice_noop (s : State) (inp : Input)
    (h : ∀ n : Int, inp.choice = .numeral n → n < 1 ∨ 8 < n) :
    (∃ s1 o, loopBody s inp = some (s1, o) ∧
      s1.store = s.store ∧ s1.platform = s.platform ∧ s1.choice ≠ 8 ∧
      (o = displayMenu ++ [.str "Enter your choice: "] ++
            [.str "Invalid choice. Please try again.\n"] ∨
       o = displayMenu ++ [.str "Enter your choice: "] ++
            [.errStr "Error: ", .errStr "Invalid input. Please enter a number.", .errEndl]) ∧
      ∀ rest : List Input, mainLoop s (inp :: rest) =
        match mainLoop s1 rest with
        | some (s2, o2) => some (s2, o ++ o2)
        | none => none) ∧
    (∀ (inp2 : Input) (s2 : State) (o2 : List Out), loopBody s inp2 = some (s2, o2) →
      (s2.choice = 8 ↔ inp2.choice = .numeral 8)) := by
  constructor
  · have hne : (extractInt inp.choice).1 ≠ 8 := by
      intro h8
      have := (extractInt_eq_eight _).1 h8
      have := h 8 this
      omega
    by_cases hg : (extractInt inp.choice).2 = true
    · have hnum := extractInt_good _ hg
      have hr := h _ hnum
      have hd : dispatch (s.withChoice (extractInt inp.choice).1) inp =
          some (s.withChoice (extractInt inp.choice).1,
            [.str "Invalid choice. Please try again.\n"]) := by
        unfold dispatch
        simp only [State.withChoice]
        split_ifs <;> first | omega | rfl
      have hl : loopBody s inp = some (s.withChoice (extractInt inp.choice).1,
          displayMenu ++ [.str "Enter your choice: "] ++
            [.str "Invalid choice. Please try again.\n"]) := by
        unfold loopBody
        simp only [State.withChoice] at hd
        simp only [hg, if_true, hd]
        rfl
      refine ⟨_, _, hl, rfl, rfl, hne, Or.inl rfl, fun rest => ?_⟩
      have hc : (s.withChoice (extractInt inp.choice).1).choice ≠ 8 := hne
      simp only [mainLoop, hl, if_pos hc]
    · have hl : loopBody s inp = some (s.withChoice (extractInt inp.choice).1,
          displayMenu ++ [.str "Enter your choice: "] ++
            [.errStr "Error: ", .errStr "Invalid input. Please enter a number.", .errEndl]) := by
        unfold loopBody
        simp only [hg]
        rfl
      refine ⟨_, _, hl, rfl, rfl, hne, Or.inr rfl, fun rest => ?_⟩
      have hc : (s.withChoice (extractInt inp.choice).1).choice ≠ 8 := hne
      simp only [mainLoop, hl, if_pos hc]
  · intro inp2 s2 o2 hl
    rw [loopBody_choice s s2 inp2 o2 hl]
    exact extractInt_eq_eight _

/-- C8 at text that is no number, typed at the menu of the state of C1. -/
theorem invalid_choice_noop_witness :
    (∃ s1 o, loopBody aliceState (choiceInput .other) = some (s1, o) ∧
      s1.store = aliceState.store ∧ s1.platform = aliceState.platform ∧ s1.choice ≠ 8 ∧
      (o = displayMenu ++ [.str "Enter your choice: "] ++
            [.str "Invalid choice. Please try again.\n"] ∨
       o = displayMenu ++ [.str "Enter your choice: "] ++
            [.errStr "Error: ", .errStr "Invalid input. Please enter a number.", .errEndl]) ∧
      ∀ rest : List Input, mainLoop aliceState (choiceInput .other :: rest) =
        match mainLoop s1 rest with
        | some (s2, o2) => some (s2, o ++ o2)
        | none => none) ∧
    (∀ (inp2 : Input) (s2 : State) (o2 : List Out), loopBody aliceState inp2 = some (s2, o2) →
      (s2.choice = 8 ↔ inp2.choice = .numeral 8)) :=
  invalid_choice_noop aliceState (choiceInput .other) (fun n hn => by cases hn)

/-- C9: in every state that `main` reaches from the empty registry, whatever
the inputs, every buyer of the platform owns only pointers that are in the
platform's `properties`, each of them has its object, and the buyer's
`totalBill` is the sum of `calculateBill` over the owned list, entry by entry. -/
theorem bill_is_sum_of_owned (c0 : Int) (inputs : List Input) :
    ∃ s o, main c0 inputs = some (s, o) ∧
      ∀ (i : Nat) (b : Buyer), s.userAt i = some (.buyer b) →
        (∀ p ∈ b.ownedProperties, p ∈ s.platform.getProperties) ∧
        ∃ Ps : List Property,
          b.ownedProperties.map (fun p => s.store.properties[p]?) = Ps.map some ∧
          b.calculateTotalBill = (Ps.map Property.calculateBill).sum := by
  obtain ⟨s, o, hm, -, -, hb⟩ := main_inv c0 inputs
  refine ⟨s, o, hm, fun i b hi => ?_⟩
  obtain ⟨u, -, hu⟩ := userAt_some s i _ hi
  exact hb b (List.getElem?_mem hu)

/-- C10: in every state that `main` reaches, a user's `getUserType()` is
"Buyer" exactly when the object is a `Buyer` (the cast succeeds) and "Seller"
exactly when it is a `Seller`; and for a purchase (menu choice 7) with an
in-bounds property index, the buyer index is among the indices written by the
buyer listing exactly when the purchase writes "Property bought
successfully!" after the prompts. -/
theorem tag_agrees_with_variant (c0 : Int) (inputs : List Input) :
    ∃ s o, main c0 inputs = some (s, o) ∧
      (∀ (i : Nat) (obj : User), s.userAt i = some obj →
        (obj.getUserType = "Buyer" ↔ ∃ b, obj.asBuyer = some b) ∧
        (obj.getUserType = "Seller" ↔ ∃ sl, obj = .seller sl)) ∧
      ∃ listing, listBuyersFrom s.store 0 s.platform.getUsers = some listing ∧
        ∀ inp : Input, inp.choice = .numeral 7 →
          0 ≤ inp.propertyIndex → inp.propertyIndex < s.platform.getProperties.length →
          ((0 ≤ inp.buyerIndex ∧ Out.size inp.buyerIndex.toNat ∈ listing) ↔
            ∃ s1 pre d, purchasePrompts s = some pre ∧
              loopBody s inp = some (s1, displayMenu ++ [.str "Enter your choice: "] ++
                (pre ++ .str "Property bought successfully!\n" :: d))) := by
  obtain ⟨s, o, hm, hwf, ht, -⟩ := main_inv c0 inputs
  have htag : ∀ (u : UserPtr) (obj : User), s.store.users[u]? = some obj →
      (obj.getUserType = "Buyer" ↔ ∃ b, obj.asBuyer = some b) ∧
      (obj.getUserType = "Seller" ↔ ∃ sl, obj = .seller sl) := by
    intro u obj hu
    rcases ht obj (List.getElem?_mem hu) with ⟨b, rfl, t⟩ | ⟨sl, rfl, t⟩
    · refine ⟨⟨fun _ => ⟨b, rfl⟩, fun _ => t⟩, ⟨fun h => ?_, fun ⟨sl, h⟩ => by cases h⟩⟩
      have h1 : b.userType = "Seller" := h
      rw [t] at h1
      exact absurd h1 (by decide)
    · refine ⟨⟨fun h => ?_, fun ⟨b, h⟩ => by cases h⟩, ⟨fun _ => ⟨sl, rfl⟩, fun _ => t⟩⟩
      have h1 : sl.userType = "Buyer" := h
      rw [t] at h1
      exact absurd h1 (by decide)
  refine ⟨s, o, hm, ?_, ?_⟩
  · intro i obj hi
    obtain ⟨u, -, hu⟩ := userAt_some s i _ hi
    exact htag u obj hu
  · obtain ⟨listing, hl⟩ := listBuyersFrom_some s.store s.platform.getUsers hwf.1 0
    obtain ⟨pre0, hpre0⟩ := purchasePrompts_some s hwf
    refine ⟨listing, hl, fun inp hc hj0 hj => ?_⟩
    rw [loopBody_buy_success_iff s inp hc pre0 hpre0,
      purchase_success_iff (s.withChoice 7) inp.buyerIndex inp.propertyIndex hwf hj0 hj,
      mem_listBuyersFrom _ _ 0 listing hl inp.buyerIndex.toNat]
    simp only [Nat.zero_le, true_and, Nat.sub_zero]
    constructor
    · rintro ⟨hi0, u, obj, h1, h2, h3⟩
      obtain ⟨b, hb⟩ := (htag u obj h2).1.1 h3
      refine ⟨hi0, b, ?_⟩
      rw [userAt_of (s.withChoice 7) _ u h1]
      show s.store.users[u]? = _
      rw [h2]
      cases obj with
      | buyer b0 => injection hb with hb; rw [hb]
      | seller sl => cases hb
    · rintro ⟨hi0, b, hb⟩
      obtain ⟨u, h1, h2⟩ := userAt_some (s.withChoice 7) _ _ hb
      exact ⟨hi0, u, _, h1, h2, (htag u _ h2).1.2 ⟨b, rfl⟩⟩

end RealEstate
